import Mathlib

/-!
Shallow embedding of the channel-layout / partition / run-info core of
src/ru/utils.py, together with theorems checking the specification claims.

Python integers are modelled as Int (Nat where values are known
non-negative), Python lists as List, Python dicts as insertion-ordered
association lists, and fallible code as Except String.
-/

namespace RU

/-- Model of a Python range(start, stop, step) call with positive step. -/
def pyRange (start stop step : Int) : List Int :=
  (List.range ((stop - start + step - 1) / step).toNat).map
    (fun k : Nat => start + step * (k : Int))

/-- The PromethION coordinate formula from get_coords (flowcell_size 3000),
    on the 0-based offset n = channel - 1: (column, row). -/
def f3000 (ch : Nat) : Nat × Nat :=
  ((ch - 1) % 250 % 10 + ((ch - 1) / 250) * 10, (ch - 1) % 250 / 10)

/-- Modelled from the spec: the hardware lookup tables FLONGLE_CHANNELS and
    MINION_CHANNELS are imported from ru/channels.py, which is not under
    src/.  Per the spec (section 4.1 and the data model) each is a fixed
    table with one entry per channel number; the tables are taken here as
    abstract parameters, constrained where needed by spec-derived
    predicates (injectivity, grid bounds). -/
structure ChannelTables where
  flongle : Nat → Nat × Nat
  minion : Nat → Nat × Nat

/-- Translation of get_coords (src/ru/utils.py lines 120-156). -/
def get_coords (T : ChannelTables) (channel flowcell_size : Int) :
    Except String (Nat × Nat) :=
  if channel ≤ 0 ∨ channel > flowcell_size then
    .error "channel cannot be below 0 or above flowcell_size"
  else if flowcell_size = 3000 then
    let block := (channel - 1).toNat / 250
    let remainder := (channel - 1).toNat % 250
    let row := remainder / 10
    let column := remainder % 10 + block * 10
    .ok (column, row)
  else if flowcell_size = 126 then
    .ok (T.flongle channel.toNat)
  else if flowcell_size = 512 then
    .ok (T.minion channel.toNat)
  else
    .error "flowcell_size is not recognised"

/-- Translation of range(1, flowcell_size + 1) used in get_flowcell_array. -/
def channelsList (flowcell_size : Int) : List Int :=
  pyRange 1 (flowcell_size + 1) 1

/-- One element of the coords list of get_flowcell_array:
    (*get_coords(x, flowcell_size), x), i.e. (column, row, channel). -/
def coordTriple (T : ChannelTables) (fs x : Int) :
    Except String (Nat × Nat × Int) := do
  let cr ← get_coords T x fs
  pure (cr.1, cr.2, x)

/-- Read cell (row r, column c) of a grid, 0 outside. -/
def cell (g : List (List Int)) (r c : Nat) : Int :=
  (g.getD r []).getD c 0

/-- Translation of b[row][col] += chan. -/
def bump (g : List (List Int)) (r c : Nat) (chan : Int) : List (List Int) :=
  g.set r ((g.getD r []).set c (cell g r c + chan))

/-- Translation of get_flowcell_array (src/ru/utils.py lines 159-208). -/
def get_flowcell_array (T : ChannelTables) (flowcell_size : Int) :
    Except String (List (List Int)) := do
  let coords ← (channelsList flowcell_size).mapM (coordTriple T flowcell_size)
  if coords = [] then
    throw "max() arg is an empty sequence"
  else
    let maxRow := (coords.map (fun t => t.2.1)).foldl max 0
    let maxCol := (coords.map (fun t => t.1)).foldl max 0
    let b0 := List.replicate (maxRow + 1) (List.replicate (maxCol + 1) (0 : Int))
    let b := coords.foldl (fun g t => bump g t.2.1 t.1 t.2.2) b0
    pure b.reverse

/-- Translation of generate_flowcell (src/ru/utils.py lines 211-285).
    np.split raises for an axis outside the shape tuple an IndexError,
    which the except ValueError clause does not catch. -/
def generate_flowcell (T : ChannelTables) (flowcell_size split axis : Int)
    (odd_even : Bool) : Except String (List (List Int)) :=
  if odd_even then
    .ok [pyRange 1 (flowcell_size + 1) 2, pyRange 2 (flowcell_size + 1) 2]
  else do
    let arr ← get_flowcell_array T flowcell_size
    if split ≤ 0 then
      throw "split must be a positive integer"
    else
      let nrows := arr.length
      let ncols := (arr.headD []).length
      let dim ←
        if axis = 0 ∨ axis = -2 then pure nrows
        else if axis = 1 ∨ axis = -1 then pure ncols
        else throw "tuple index out of range"
      let s := split.toNat
      if dim % s ≠ 0 then
        throw "The flowcell cannot be split evenly"
      else
        let q := dim / s
        if axis = 0 ∨ axis = -2 then
          pure ((List.range s).map (fun i => ((arr.drop (i * q)).take q).flatten))
        else
          pure ((List.range s).map
            (fun i => (arr.map (fun row => (row.drop (i * q)).take q)).flatten))

/-- The coordinate function a recognized flowcell size selects. -/
def coordFun (T : ChannelTables) (fs : Int) : Nat → Nat × Nat :=
  if fs = 3000 then f3000 else if fs = 126 then T.flongle else T.minion

/-- The coords list of get_flowcell_array for a pure coordinate function:
    one (column, row, channel) triple per channel 1..n. -/
def tripleList (g : Nat → Nat × Nat) (n : Nat) : List (Nat × Nat × Int) :=
  (List.range n).map (fun i => ((g (i + 1)).1, (g (i + 1)).2, (i : Int) + 1))

/-- The maximal row coordinate over channels 1..n. -/
def gridMaxRow (g : Nat → Nat × Nat) (n : Nat) : Nat :=
  ((tripleList g n).map (fun t => t.2.1)).foldl max 0

/-- The maximal column coordinate over channels 1..n. -/
def gridMaxCol (g : Nat → Nat × Nat) (n : Nat) : Nat :=
  ((tripleList g n).map (fun t => t.1)).foldl max 0

/-- The loop step of get_flowcell_array. -/
def bumpStep (gr : List (List Int)) (t : Nat × Nat × Int) : List (List Int) :=
  bump gr t.2.1 t.1 t.2.2

/-- The unreversed grid built by the accumulation loop. -/
def gridRaw (g : Nat → Nat × Nat) (n : Nat) : List (List Int) :=
  (tripleList g n).foldl bumpStep
    (List.replicate (gridMaxRow g n + 1)
      (List.replicate (gridMaxCol g n + 1) (0 : Int)))

/-- Injectivity of a coordinate table on channels 1..n, the spec-modelled
    consequence of the table being a bijection onto the occupied cells. -/
def InjOn1 (g : Nat → Nat × Nat) (n : Nat) : Prop :=
  ∀ a b : Nat, 1 ≤ a → a ≤ n → 1 ≤ b → b ≤ n → g a = g b → a = b

/-- Modelled from the spec: the data model says the channel-to-coordinate
    mapping of each lookup table is a bijection onto the occupied cells of
    the grid, so in particular injective on the channel range. -/
def SpecTablesInjective (T : ChannelTables) : Prop :=
  InjOn1 T.flongle 126 ∧ InjOn1 T.minion 512

/-- Column and row bounds of a lookup table, with both maxima attained. -/
def TableBounds (tbl : Nat → Nat × Nat) (size mc mr : Nat) : Prop :=
  (∀ ch, 1 ≤ ch → ch ≤ size → (tbl ch).1 ≤ mc ∧ (tbl ch).2 ≤ mr) ∧
  (∃ ch, 1 ≤ ch ∧ ch ≤ size ∧ (tbl ch).1 = mc) ∧
  (∃ ch, 1 ≤ ch ∧ ch ≤ size ∧ (tbl ch).2 = mr)

/-- Modelled from the spec: section 8 fixes the grid shapes
    build_grid(126).shape = (10, 13) and build_grid(512).shape = (16, 32),
    which for the external tables means columns up to 12 and rows up to 9
    (Flongle), columns up to 31 and rows up to 15 (MinION), attained. -/
def SpecTablesShape (T : ChannelTables) : Prop :=
  TableBounds T.flongle 126 12 9 ∧ TableBounds T.minion 512 31 15

/-- The grid get_flowcell_array builds for a pure coordinate function. -/
def gridOf (g : Nat → Nat × Nat) (n : Nat) : List (List Int) :=
  (gridRaw g n).reverse

/-! ### Target region parser (get_targets, src/ru/utils.py lines 288-321) -/

/-- Lexicographic comparison of code-point lists, the Python string order. -/
def charListLt : List Char → List Char → Bool
  | _, [] => false
  | [], _ :: _ => true
  | a :: as, b :: bs =>
    if a.toNat < b.toNat then true
    else if b.toNat < a.toNat then false
    else charListLt as bs

/-- Python string comparison s1 < s2. -/
def strLtB (a b : String) : Bool := charListLt a.data b.data

/-- Python item.split(sep) for a single-character separator, on char lists. -/
def splitOnCharList (sep : Char) : List Char → List (List Char)
  | [] => [[]]
  | c :: rest =>
    match splitOnCharList sep rest with
    | [] => [[]]
    | g :: gs => if c = sep then [] :: g :: gs else (c :: g) :: gs

/-- Python item.split(","). -/
def pySplitComma (s : String) : List String :=
  (splitOnCharList ',' s.data).map (fun l => String.mk l)

/-- Value of a list of decimal digits. -/
def digitsVal (ds : List Char) : Nat :=
  ds.foldl (fun n c => n * 10 + (c.toNat - 48)) 0

/-- Python int(s) for base 10: optional surrounding whitespace, optional
    sign, one or more digits; anything else raises ValueError. -/
def pyInt (s : String) : Except String Int :=
  let t := ((s.data.dropWhile Char.isWhitespace).reverse.dropWhile
    Char.isWhitespace).reverse
  let core : Int × List Char :=
    match t with
    | '-' :: ds => (-1, ds)
    | '+' :: ds => (1, ds)
    | ds => (1, ds)
  if core.2 ≠ [] ∧ core.2.all Char.isDigit then
    .ok (core.1 * (digitsVal core.2 : Int))
  else
    .error ("invalid literal for int() with base 10: " ++ s)

/-- A coordinate in a target tuple: an int, or float(, used only for the
    default (0, inf) interval. -/
inductive TargetCoord where
  | num (n : Int)
  | inf
deriving DecidableEq, Repr

/-- One tuple appended to a strand/contig list; the common case is a pair
    (start, end) but the code tuples up every numeric token. -/
abbrev TargetTuple := List TargetCoord

/-- The defaultdict of defaultdicts built by get_targets, modelled as the
    ordered list of appends (strand, contig, tuple).  Python dict lookups
    are recovered by filtering this list in order. -/
abbrev TargetMap := List (String × String × TargetTuple)

/-- The interval list t[strand][ctg], in append order. -/
def tmTuples (m : TargetMap) (strand ctg : String) : List TargetTuple :=
  (m.filter (fun e => e.1 == strand && e.2.1 == ctg)).map (fun e => e.2.2)

/-- Whether the outer defaultdict has an entry for this strand. -/
def tmHasStrand (m : TargetMap) (strand : String) : Bool :=
  m.any (fun e => e.1 == strand)

/-- The default interval (0, float(&inf&)) appended when a descriptor has
    no coordinates. -/
def defaultTuple : TargetTuple := [TargetCoord.num 0, TargetCoord.inf]

/-- The body of the loop over items in get_targets: split the descriptor
    on commas; with coordinates, the last token is the strand and the rest
    are parsed as ints; without, both strands get (0, inf). -/
def descriptorStep (m : TargetMap) (item : String) : Except String TargetMap :=
  match pySplitComma item with
  | [] => .ok m
  | [ctg] =>
    .ok (m ++ [("+", ctg, defaultTuple), ("-", ctg, defaultTuple)])
  | ctg :: c :: cs => do
    let coords := c :: cs
    let strand := coords.getLast (by simp)
    let vals ← coords.dropLast.mapM pyInt
    .ok (m ++ [(strand, ctg, vals.map TargetCoord.num)])

/-- The argument of get_targets: a Python str or a list of str. -/
inductive TargetsArg where
  | ofStr (s : String)
  | ofList (l : List String)

/-- Translation of get_targets (src/ru/utils.py lines 288-321).  The
    filesystem probe Path(targets).is_file() and the file reader are
    external effects, passed as parameters.  A string that is not a file
    is NOT rejected: Python then iterates the string character by
    character. -/
def get_targets (isFile : String → Bool) (readLines : String → List String)
    (targets : TargetsArg) : Except String TargetMap :=
  let items : List String :=
    match targets with
    | .ofStr s => if isFile s then readLines s else s.data.map (fun c => String.mk [c])
    | .ofList l => l
  items.foldlM descriptorStep []

/-! ### Configuration model and get_run_info (src/ru/utils.py lines 324-400)

A TOML configuration is a dict of dicts; Python dicts are modelled as
insertion-ordered association lists with distinct keys.  The nesting that
get_run_info touches is: top level, the conditions table, and one
condition table per condition. -/

/-- A scalar-or-list field value inside a condition table, plus the two
    value shapes get_run_info itself writes (a Python set of contig names,
    modelled as a canonically sorted deduplicated list, and the coords
    target map). -/
inductive FieldValue where
  | str (s : String)
  | int (n : Int)
  | bool (b : Bool)
  | strList (l : List String)
  | strSet (l : List String)
  | targetMap (m : TargetMap)
deriving DecidableEq, Repr

/-- An entry of the conditions table: a per-condition sub-dict or a
    top-level control scalar (maintain_order, axis, reference). -/
inductive CondEntry where
  | scalar (v : FieldValue)
  | table (t : List (String × FieldValue))
deriving DecidableEq, Repr

abbrev CondDict := List (String × FieldValue)
abbrev CondTable := List (String × CondEntry)

/-- An entry of the top-level TOML dict. -/
inductive TopEntry where
  | scalar (v : FieldValue)
  | table (t : CondTable)
deriving DecidableEq, Repr

abbrev TomlDict := List (String × TopEntry)

/-- Python d.get(k) on an insertion-ordered association list. -/
def dget {κ α : Type} [BEq κ] (d : List (κ × α)) (k : κ) : Option α :=
  (d.find? (fun p => p.1 == k)).map (fun p => p.2)

/-- Python d[k] = v: update in place if the key exists, else append. -/
def dupdate {κ α : Type} [BEq κ] (d : List (κ × α)) (k : κ) (v : α) :
    List (κ × α) :=
  if d.any (fun p => p.1 == k) then
    d.map (fun p => if p.1 == k then (k, v) else p)
  else
    d ++ [(k, v)]

/-- Python d[k] = v on a configuration dict. -/
def dset {α : Type} (d : List (String × α)) (k : String) (v : α) :
    List (String × α) :=
  dupdate d k v

/-- isinstance(-, dict) for a conditions-table entry. -/
def isTableE : Option CondEntry → Bool
  | some (.table _) => true
  | _ => false

/-- Python truthiness of a conditions-table entry, used for the
    maintain_order flag. -/
def pyTruthy : CondEntry → Bool
  | .scalar (.str s) => s ≠ ""
  | .scalar (.int n) => n ≠ 0
  | .scalar (.bool b) => b
  | .scalar (.strList l) => l ≠ []
  | .scalar (.strSet l) => l ≠ []
  | .scalar (.targetMap m) => m ≠ []
  | .table t => t ≠ []

/-- The condition keys: keys of the conditions table whose value is a
    dict, in insertion order. -/
def tableKeys (ct : CondTable) : List String :=
  (ct.map (fun p => p.1)).filter (fun k => isTableE (dget ct k))

/-- Reading the axis control field (default 1).  np.split would reject a
    non-integer axis. -/
def axisExtract (ct : CondTable) : Except String Int :=
  match dget ct "axis" with
  | none => .ok 1
  | some (.scalar (.int n)) => .ok n
  | some _ => .error "TypeError: axis must be an integer"

/-- Canonical model of Python set(l) for a list of strings: sorted
    deduplicated elements. -/
def strSetOf (l : List String) : List String :=
  l.dedup.insertionSort (fun a b => strLtB a b = true)

/-- The contig names referenced by a target map: for each strand key the
    contig keys are collected and the result is turned into a set. -/
def contigsOf (m : TargetMap) : List String :=
  strSetOf (m.map (fun e => e.2.1))

/-- The get_targets call of get_run_info on the targets field of a
    condition: a missing field raises KeyError, a non-string non-list
    field is not iterable. -/
def targetsField (isFile : String → Bool) (readLines : String → List String) :
    Option FieldValue → Except String TargetMap
  | none => .error "KeyError: targets"
  | some (.str s) => get_targets isFile readLines (.ofStr s)
  | some (.strList l) => get_targets isFile readLines (.ofList l)
  | some _ => .error "TypeError: object is not iterable"

/-- The mutation loop of get_run_info: for each condition key, the coords
    field is set to the parsed target map and the targets field is
    replaced by the set of contig names.  This mutates the conditions
    table in place. -/
def mutateConds (isFile : String → Bool) (readLines : String → List String) :
    List String → CondTable → Except String CondTable
  | [], ct => .ok ct
  | k :: ks, ct =>
    match dget ct k with
    | some (.table cond) => do
      let tm ← targetsField isFile readLines (dget cond "targets")
      let cond1 := dset cond "coords" (.targetMap tm)
      let cond2 := dset cond1 "targets" (.strSet (contigsOf tm))
      mutateConds isFile readLines ks (dset ct k (.table cond2))
    | _ => mutateConds isFile readLines ks ct

/-- The in-place transform a single condition dict undergoes in the
    mutation loop: coords is set to the parsed target map and targets is
    replaced by the set of contig names. -/
def condTransform (cond : CondDict) (tm : TargetMap) : CondDict :=
  dset (dset cond "coords" (.targetMap tm)) "targets"
    (.strSet (contigsOf tm))

/-- Python dict insertion run_info[channel] = pos. -/
def dinsert (m : List (Int × Nat)) (k : Int) (v : Nat) : List (Int × Nat) :=
  dupdate m k v

/-- run_info lookup. -/
def mlookup (m : List (Int × Nat)) (k : Int) : Option Nat :=
  dget m k

/-- How many times a channel occurs as a key of run_info. -/
def keysCount (m : List (Int × Nat)) (k : Int) : Nat :=
  m.countP (fun p => p.1 == k)

/-- The maintain_order flag: Python truthiness, defaulting to True. -/
def maintainOf (ct : CondTable) : Bool :=
  match dget ct "maintain_order" with
  | some v => pyTruthy v
  | none => true

/-- sort_func applied to the keys of the conditions table: sorted when
    maintain_order is truthy, shuffled otherwise. -/
def sortedKeysOf (shuffle : List String → List String) (maintain : Bool)
    (ct1 : CondTable) : List String :=
  if maintain then
    (ct1.map (fun p => p.1)).insertionSort (fun a b => strLtB a b = true)
  else
    shuffle (ct1.map (fun p => p.1))

/-- The split_conditions list: the dict-valued entries in sorted order
    (named_tuple_generator is modelled as the field list itself). -/
def splitCondsOf (sortedKeys : List String) (ct1 : CondTable) :
    List CondDict :=
  sortedKeys.filterMap (fun k =>
    match dget ct1 k with
    | some (.table c) => some c
    | _ => none)

/-- The run_info dict comprehension: for each (pos, (channels, condition))
    of enumerate(zip(..)), each channel is inserted with value pos. -/
def runInfoFold (split_channels : List (List Int))
    (split_conditions : List CondDict) : List (Int × Nat) :=
  ((split_channels.zip split_conditions).enum).foldl
    (fun m p => p.2.1.foldl (fun m2 ch => dinsert m2 ch p.1) m) []

/-- The flattened insertion events of the run_info comprehension, in
    evaluation order. -/
def eventsOf (chans : List (List Int)) (conds : List CondDict) :
    List (Int × Nat) :=
  ((chans.zip conds).enum.map (fun p => p.2.1.map (fun ch => (ch, p.1)))).flatten

/-- Folding dict insertions over a list of events. -/
def applyEvents (m : List (Int × Nat)) (evs : List (Int × Nat)) :
    List (Int × Nat) :=
  evs.foldl (fun m2 e => dinsert m2 e.1 e.2) m

/-- The value of get_run_info, with the post-call state of the input dict
    (the call mutates the condition sub-dicts in place). -/
structure RunInfoResult where
  run_info : List (Int × Nat)
  split_conditions : List CondDict
  reference : Option CondEntry
  final_config : TomlDict
deriving DecidableEq, Repr

/-- Translation of get_run_info (src/ru/utils.py lines 324-400) for an
    in-memory dict argument.  The shuffle used when maintain_order is
    falsy (sorted with a random key) is non-deterministic and is passed
    as a parameter. -/
def get_run_info (T : ChannelTables) (isFile : String → Bool)
    (readLines : String → List String) (shuffle : List String → List String)
    (toml_dict : TomlDict) (num_channels : Int) :
    Except String RunInfoResult := do
  let condEntry ←
    match dget toml_dict "conditions" with
    | some v => pure v
    | none => throw "KeyError: conditions"
  let ct ←
    match condEntry with
    | .table ct => pure ct
    | .scalar _ => throw "AttributeError: keys"
  let conditions := tableKeys ct
  let maintain := maintainOf ct
  let axis ← axisExtract ct
  let split_channels ←
    generate_flowcell T num_channels (conditions.length : Int) axis false
  let ct1 ← mutateConds isFile readLines conditions ct
  let split_conditions := splitCondsOf (sortedKeysOf shuffle maintain ct1) ct1
  let run_info := runInfoFold split_channels split_conditions
  let reference := dget ct1 "reference"
  pure ⟨run_info, split_conditions, reference,
    dset toml_dict "conditions" (.table ct1)⟩

/-! ### Concrete instances used by witnesses -/

instance exceptDecEq {ε α : Type} [DecidableEq ε] [DecidableEq α] :
    DecidableEq (Except ε α) := fun x y =>
  match x, y with
  | .ok a, .ok b => if h : a = b then isTrue (by rw [h]) else isFalse (by simp [h])
  | .error e, .error f =>
    if h : e = f then isTrue (by rw [h]) else isFalse (by simp [h])
  | .ok _, .error _ => isFalse (by simp)
  | .error _, .ok _ => isFalse (by simp)

/-- A concrete pair of lookup tables satisfying the spec-modelled
    constraints (injective, grid bounds attained), used to instantiate
    the table parameters in witnesses and counterexamples. -/
def dummyTables : ChannelTables :=
  ⟨fun ch => ((ch - 1) % 13, (ch - 1) / 13),
   fun ch => ((ch - 1) % 32, (ch - 1) / 32)⟩

/-- A concrete two-condition conditions table without a reference field,
    splitting along axis 0. -/
def cfg0ct : CondTable :=
  [("0", .table [("targets", .strList ["chr1,10,20,+"])]),
   ("1", .table [("targets", .strList ["chr2"])]),
   ("axis", .scalar (.int 0))]

/-- A concrete two-condition configuration without a reference field. -/
def cfg0 : TomlDict := [("conditions", .table cfg0ct)]

/-- The same configuration with an extra unrelated top-level field. -/
def cfg1 : TomlDict :=
  [("conditions", .table cfg0ct), ("extra", .scalar (.int 7))]

/-- The targets field of one condition of a configuration, when present. -/
def condTargetsOf (toml : TomlDict) (k : String) :
    Option (Option FieldValue) :=
  match dget toml "conditions" with
  | some (.table ct) =>
    match dget ct k with
    | some (.table cond) => some (dget cond "targets")
    | _ => none
  | _ => none

/-- The reference field inside the conditions section, when the section
    exists and is a table. -/
def condRefOf (toml : TomlDict) : Option (Option CondEntry) :=
  match dget toml "conditions" with
  | some (.table ct) => some (dget ct "reference")
  | _ => none

/-- The filesystem probe used in witnesses: nothing is a file. -/
def noFile : String → Bool := fun _ => false

/-- The file reader used in witnesses: never called. -/
def noLines : String → List String := fun _ => []

/-! ### Channel list and coordinate lemmas -/

theorem channelsList_eq (fs : Int) :
    channelsList fs = (List.range fs.toNat).map (fun i : Nat => (i : Int) + 1) := by
  unfold channelsList pyRange
  have h1 : (fs + 1 - 1 + 1 - 1) / 1 = fs := by omega
  rw [h1]
  have h2 : (fun k : Nat => (1 : Int) + 1 * (k : Int)) =
      fun i : Nat => (i : Int) + 1 := by
    funext k; ring
  rw [h2]

theorem mem_channelsList {fs x : Int} :
    x ∈ channelsList fs ↔ 1 ≤ x ∧ x ≤ fs := by
  rw [channelsList_eq]
  simp only [List.mem_map, List.mem_range]
  constructor
  · rintro ⟨i, hi, rfl⟩; omega
  · rintro ⟨h1, h2⟩; exact ⟨(x - 1).toNat, by omega, by omega⟩

theorem mapM_ok {β : Type} (f : Int → Except String β) (g : Int → β) :
    ∀ l : List Int, (∀ x ∈ l, f x = .ok (g x)) →
      l.mapM f = .ok (l.map g)
  | [], _ => rfl
  | a :: l, h => by
    rw [List.mapM_cons, h a (by simp),
      mapM_ok f g l (fun x hx => h x (List.mem_cons_of_mem a hx))]
    rfl

theorem get_coords_recognized (T : ChannelTables) {fs ch : Int}
    (hfs : fs = 126 ∨ fs = 512 ∨ fs = 3000) (h1 : 1 ≤ ch) (h2 : ch ≤ fs) :
    get_coords T ch fs = .ok (coordFun T fs ch.toNat) := by
  have hno : ¬(ch ≤ 0 ∨ ch > fs) := by omega
  have h3 : (ch - 1).toNat = ch.toNat - 1 := by omega
  rcases hfs with h | h | h <;> subst h <;>
    simp only [get_coords, coordFun, hno, if_false, ite_false] <;>
    norm_num [f3000, h3]

theorem get_coords_oob (T : ChannelTables) {fs ch : Int}
    (h : ch ≤ 0 ∨ ch > fs) :
    get_coords T ch fs
      = .error "channel cannot be below 0 or above flowcell_size" := by
  simp only [get_coords, if_pos h]

theorem get_coords_unrecognized (T : ChannelTables) {fs ch : Int}
    (h1 : 1 ≤ ch) (h2 : ch ≤ fs)
    (n126 : fs ≠ 126) (n512 : fs ≠ 512) (n3000 : fs ≠ 3000) :
    get_coords T ch fs = .error "flowcell_size is not recognised" := by
  have hno : ¬(ch ≤ 0 ∨ ch > fs) := by omega
  simp only [get_coords, hno, n126, n512, n3000, if_false, ite_false]

theorem tripleList_ne_nil {g : Nat → Nat × Nat} {n : Nat} (h : 0 < n) :
    tripleList g n ≠ [] := by
  unfold tripleList
  simp only [ne_eq, List.map_eq_nil_iff, List.range_eq_nil]
  omega

theorem mapM_triples (T : ChannelTables) {fs : Int}
    (hfs : fs = 126 ∨ fs = 512 ∨ fs = 3000) :
    (channelsList fs).mapM (coordTriple T fs)
      = .ok (tripleList (coordFun T fs) fs.toNat) := by
  rw [channelsList_eq]
  rw [mapM_ok (coordTriple T fs)
    (fun x => ((coordFun T fs x.toNat).1, (coordFun T fs x.toNat).2, x)) _ ?ok]
  case ok =>
    intro x hx
    simp only [List.mem_map, List.mem_range] at hx
    obtain ⟨i, hi, rfl⟩ := hx
    unfold coordTriple
    rw [get_coords_recognized T hfs (by omega) (by omega)]
    rfl
  · unfold tripleList
    rw [List.map_map]
    congr 1

theorem get_flowcell_array_ok (T : ChannelTables) {fs : Int}
    (hfs : fs = 126 ∨ fs = 512 ∨ fs = 3000) :
    get_flowcell_array T fs = .ok (gridOf (coordFun T fs) fs.toNat) := by
  have hpos : 0 < fs.toNat := by rcases hfs with h | h | h <;> subst h <;> decide
  have hne := @tripleList_ne_nil (coordFun T fs) fs.toNat hpos
  unfold get_flowcell_array
  rw [mapM_triples T hfs]
  simp only [Except.bind, bind]
  rw [if_neg hne]
  rfl

/-! ### Grid shape and cell-value lemmas -/

theorem getD_set_list {α : Type} (g : List α) (r : Nat) (x : α) (d : α) (i : Nat) :
    (g.set r x).getD i d
      = if r = i ∧ r < g.length then x else g.getD i d := by
  simp only [List.getD_eq_getElem?_getD, List.getElem?_set]
  by_cases h1 : r = i
  · subst h1
    by_cases h2 : r < g.length
    · simp [h2]
    · simp [h2, List.getElem?_eq_none (le_of_not_lt h2)]
  · simp [h1]

theorem bump_length (g : List (List Int)) (r c : Nat) (v : Int) :
    (bump g r c v).length = g.length := by
  simp [bump]

theorem bump_rowlen (g : List (List Int)) (r0 c0 : Nat) (v : Int) (i : Nat) :
    ((bump g r0 c0 v).getD i []).length = (g.getD i []).length := by
  unfold bump
  rw [getD_set_list]
  by_cases h : r0 = i ∧ r0 < g.length
  · rw [if_pos h, List.length_set, h.1]
  · rw [if_neg h]

theorem cell_bump_eq (g : List (List Int)) (r0 c0 : Nat) (v : Int) (r c : Nat)
    (hr : r0 < g.length) (hc : c0 < (g.getD r0 []).length) :
    cell (bump g r0 c0 v) r c
      = if r0 = r ∧ c0 = c then cell g r c + v else cell g r c := by
  unfold cell bump
  rw [getD_set_list]
  by_cases h1 : r0 = r
  · subst h1
    rw [if_pos ⟨rfl, hr⟩, getD_set_list]
    by_cases h2 : c0 = c
    · subst h2
      rw [if_pos ⟨rfl, hc⟩, if_pos ⟨rfl, rfl⟩]
      rfl
    · rw [if_neg (by simp [h2]), if_neg (by simp [h2])]
  · rw [if_neg (by simp [h1]), if_neg (by simp [h1])]

theorem foldl_bump_length :
    ∀ (cs : List (Nat × Nat × Int)) (g : List (List Int)),
      (cs.foldl bumpStep g).length = g.length
  | [], _ => rfl
  | t :: cs, g => by
    rw [List.foldl_cons, foldl_bump_length cs, bumpStep, bump_length]

theorem foldl_bump_rowlen :
    ∀ (cs : List (Nat × Nat × Int)) (g : List (List Int)) (i : Nat),
      (((cs.foldl bumpStep g).getD i []) : List Int).length
        = (g.getD i []).length
  | [], _, _ => rfl
  | t :: cs, g, i => by
    rw [List.foldl_cons, foldl_bump_rowlen cs, bumpStep, bump_rowlen]

theorem cell_foldl_bump :
    ∀ (cs : List (Nat × Nat × Int)) (g : List (List Int)),
      (∀ t ∈ cs, t.2.1 < g.length ∧ t.1 < (g.getD t.2.1 []).length) →
      ∀ r c : Nat,
        cell (cs.foldl bumpStep g) r c
          = cell g r c
            + ((cs.filter (fun t => t.2.1 == r && t.1 == c)).map
                (fun t => t.2.2)).sum
  | [], _, _, _, _ => by simp
  | t :: cs, g, hb, r, c => by
    have ht := hb t (by simp)
    have hrest : ∀ u ∈ cs, u.2.1 < (bumpStep g t).length
        ∧ u.1 < ((bumpStep g t).getD u.2.1 []).length := by
      intro u hu
      have := hb u (List.mem_cons_of_mem t hu)
      rwa [bumpStep, bump_length, bump_rowlen]
    rw [List.foldl_cons, cell_foldl_bump cs (bumpStep g t) hrest r c]
    show cell (bump g t.2.1 t.1 t.2.2) r c + _ = _
    rw [cell_bump_eq g t.2.1 t.1 t.2.2 r c ht.1 ht.2]
    by_cases h : t.2.1 = r ∧ t.1 = c
    · rw [if_pos h, List.filter_cons_of_pos (by simp [h.1, h.2]),
        List.map_cons, List.sum_cons]
      ring
    · rw [if_neg h, List.filter_cons_of_neg (by
        simp only [Bool.and_eq_true, beq_iff_eq]
        exact fun hc => h ⟨hc.1, hc.2⟩)]

theorem cell_replicate_zero (R C r c : Nat) :
    cell (List.replicate R (List.replicate C (0 : Int))) r c = 0 := by
  unfold cell
  simp only [List.getD_eq_getElem?_getD, List.getElem?_replicate]
  by_cases h : r < R
  · by_cases h2 : c < C <;> simp [h, h2, List.getElem?_replicate]
  · simp [h]

theorem init_le_foldl_max :
    ∀ (l : List Nat) (a : Nat), a ≤ l.foldl max a
  | [], a => le_refl a
  | b :: l, a => le_trans (le_max_left a b) (init_le_foldl_max l (max a b))

theorem le_foldl_max :
    ∀ (l : List Nat) (a x : Nat), x ∈ l → x ≤ l.foldl max a
  | [], _, _, hx => absurd hx (List.not_mem_nil _)
  | b :: l, a, x, hx => by
    rw [List.foldl_cons]
    rcases List.mem_cons.mp hx with h | h
    · subst h
      exact le_trans (le_max_right a x) (init_le_foldl_max l (max a x))
    · exact le_foldl_max l (max a b) x h

theorem foldl_max_le :
    ∀ (l : List Nat) (a M : Nat), a ≤ M → (∀ x ∈ l, x ≤ M) →
      l.foldl max a ≤ M
  | [], _, _, ha, _ => ha
  | b :: l, a, M, ha, h => by
    rw [List.foldl_cons]
    exact foldl_max_le l (max a b) M
      (max_le ha (h b (by simp))) (fun x hx => h x (List.mem_cons_of_mem b hx))

theorem foldl_max_eq (l : List Nat) (M : Nat) (hmem : M ∈ l)
    (hub : ∀ x ∈ l, x ≤ M) : l.foldl max 0 = M :=
  le_antisymm (foldl_max_le l 0 M (Nat.zero_le M) hub) (le_foldl_max l 0 M hmem)

/-! ### Unique-cell counting lemmas -/

theorem eq_singleton_of_nodup (l : List Nat) (k : Nat) (hnd : l.Nodup)
    (hm : k ∈ l) (hall : ∀ x ∈ l, x = k) : l = [k] := by
  cases l with
  | nil => cases hm
  | cons a t =>
    cases t with
    | nil => rw [hall a (by simp)]
    | cons b t2 =>
      have ha := hall a (by simp)
      have hb := hall b (by simp)
      rw [List.nodup_cons] at hnd
      exact absurd (by rw [ha, hb]; simp : a ∈ b :: t2) hnd.1

theorem filter_range_unique (n k : Nat) (p : Nat → Bool) (hk : k < n)
    (hpk : p k = true) (h : ∀ i, i < n → p i = true → i = k) :
    (List.range n).filter p = [k] := by
  refine eq_singleton_of_nodup _ k (List.Nodup.filter p (List.nodup_range n))
    (List.mem_filter.mpr ⟨List.mem_range.mpr hk, hpk⟩) ?_
  intro x hx
  have hx' := List.mem_filter.mp hx
  exact h x (List.mem_range.mp hx'.1) hx'.2

theorem filter_range_cases (n : Nat) (p : Nat → Bool)
    (h : ∀ i j, i < n → j < n → p i = true → p j = true → i = j) :
    (List.range n).filter p = [] ∨
      ∃ j, j < n ∧ p j = true ∧ (List.range n).filter p = [j] := by
  by_cases hemp : (List.range n).filter p = []
  · exact Or.inl hemp
  · right
    obtain ⟨j, hj⟩ := List.exists_mem_of_ne_nil _ hemp
    have hj' := List.mem_filter.mp hj
    have hjn := List.mem_range.mp hj'.1
    refine ⟨j, hjn, hj'.2, ?_⟩
    refine eq_singleton_of_nodup _ j (List.Nodup.filter p (List.nodup_range n))
      hj ?_
    intro x hx
    have hx' := List.mem_filter.mp hx
    exact h x j (List.mem_range.mp hx'.1) hjn hx'.2 hj'.2

theorem tripleList_row_le {g : Nat → Nat × Nat} {n : Nat} :
    ∀ t ∈ tripleList g n, t.2.1 ≤ gridMaxRow g n := by
  intro t ht
  exact le_foldl_max _ 0 _ (List.mem_map.mpr ⟨t, ht, rfl⟩)

theorem tripleList_col_le {g : Nat → Nat × Nat} {n : Nat} :
    ∀ t ∈ tripleList g n, t.1 ≤ gridMaxCol g n := by
  intro t ht
  exact le_foldl_max _ 0 _ (List.mem_map.mpr ⟨t, ht, rfl⟩)

theorem coord_mem_tripleList {g : Nat → Nat × Nat} {n ch : Nat}
    (h1 : 1 ≤ ch) (h2 : ch ≤ n) :
    ((g ch).1, (g ch).2, ((ch - 1 : Nat) : Int) + 1) ∈ tripleList g n := by
  unfold tripleList
  refine List.mem_map.mpr ⟨ch - 1, List.mem_range.mpr (by omega), ?_⟩
  have hch : ch - 1 + 1 = ch := by omega
  rw [hch]

theorem coord_row_le {g : Nat → Nat × Nat} {n ch : Nat}
    (h1 : 1 ≤ ch) (h2 : ch ≤ n) : (g ch).2 ≤ gridMaxRow g n :=
  tripleList_row_le _ (coord_mem_tripleList h1 h2)

theorem coord_col_le {g : Nat → Nat × Nat} {n ch : Nat}
    (h1 : 1 ≤ ch) (h2 : ch ≤ n) : (g ch).1 ≤ gridMaxCol g n :=
  tripleList_col_le _ (coord_mem_tripleList h1 h2)

theorem gridRaw_length (g : Nat → Nat × Nat) (n : Nat) :
    (gridRaw g n).length = gridMaxRow g n + 1 := by
  unfold gridRaw
  rw [foldl_bump_length, List.length_replicate]

theorem gridRaw_rowlen (g : Nat → Nat × Nat) (n : Nat) (i : Nat) :
    ((gridRaw g n).getD i []).length
      = if i < gridMaxRow g n + 1 then gridMaxCol g n + 1 else 0 := by
  unfold gridRaw
  rw [foldl_bump_rowlen]
  rw [List.getD_eq_getElem?_getD, List.getElem?_replicate]
  by_cases h : i < gridMaxRow g n + 1 <;> simp [h]

theorem cell_gridRaw (g : Nat → Nat × Nat) (n : Nat) (r c : Nat) :
    cell (gridRaw g n) r c
      = (((List.range n).filter
          (fun i => (g (i + 1)).2 == r && (g (i + 1)).1 == c)).map
          (fun i : Nat => (i : Int) + 1)).sum := by
  unfold gridRaw
  rw [cell_foldl_bump _ _ ?bounds r c, cell_replicate_zero, zero_add]
  case bounds =>
    intro t ht
    constructor
    · rw [List.length_replicate]
      exact Nat.lt_succ_of_le (tripleList_row_le t ht)
    · rw [List.getD_eq_getElem?_getD, List.getElem?_replicate,
        if_pos (Nat.lt_succ_of_le (tripleList_row_le t ht))]
      show t.1 < (List.replicate (gridMaxCol g n + 1) (0 : Int)).length
      rw [List.length_replicate]
      exact Nat.lt_succ_of_le (tripleList_col_le t ht)
  unfold tripleList
  rw [List.filter_map, List.map_map]
  rfl

theorem cell_gridRaw_self (g : Nat → Nat × Nat) (n : Nat) (hinj : InjOn1 g n)
    {ch : Nat} (h1 : 1 ≤ ch) (h2 : ch ≤ n) :
    cell (gridRaw g n) (g ch).2 (g ch).1 = (ch : Int) := by
  rw [cell_gridRaw]
  have hch : ch - 1 + 1 = ch := by omega
  have huniq : ∀ i, i < n →
      ((g (i + 1)).2 == (g ch).2 && (g (i + 1)).1 == (g ch).1) = true →
      i = ch - 1 := by
    intro i hi hp
    simp only [Bool.and_eq_true, beq_iff_eq] at hp
    have heq : g (i + 1) = g ch := Prod.ext_iff.mpr ⟨hp.2, hp.1⟩
    have := hinj (i + 1) ch (by omega) (by omega) h1 h2 heq
    omega
  rw [filter_range_unique n (ch - 1) _ (by omega) (by rw [hch]; simp) huniq]
  simp
  omega

theorem cell_gridRaw_ne (g : Nat → Nat × Nat) (n : Nat) (hinj : InjOn1 g n)
    {ch : Nat} (h1 : 1 ≤ ch) (_h2 : ch ≤ n) (r c : Nat)
    (hne : ¬((g ch).2 = r ∧ (g ch).1 = c)) :
    cell (gridRaw g n) r c ≠ (ch : Int) := by
  rw [cell_gridRaw]
  have huniq : ∀ i j, i < n → j < n →
      ((g (i + 1)).2 == r && (g (i + 1)).1 == c) = true →
      ((g (j + 1)).2 == r && (g (j + 1)).1 == c) = true → i = j := by
    intro i j hi hj hp hq
    simp only [Bool.and_eq_true, beq_iff_eq] at hp hq
    have heq : g (i + 1) = g (j + 1) :=
      Prod.ext_iff.mpr ⟨hp.2.trans hq.2.symm, hp.1.trans hq.1.symm⟩
    have := hinj (i + 1) (j + 1) (by omega) (by omega) (by omega) (by omega) heq
    omega
  rcases filter_range_cases n _ huniq with hemp | ⟨j, hj, hpj, heq⟩
  · rw [hemp]
    simp
    omega
  · rw [heq]
    simp only [List.map_cons, List.map_nil, List.sum_cons, List.sum_nil,
      add_zero, ne_eq]
    intro habs
    have hjch : j + 1 = ch := by omega
    simp only [Bool.and_eq_true, beq_iff_eq] at hpj
    rw [hjch] at hpj
    exact hne ⟨hpj.1, hpj.2⟩

theorem count_map_int {α : Type} (f : α → Int) (l : List α) (x : Int) :
    (l.map f).count x = l.countP (fun a => f a == x) := by
  rw [List.count_eq_countP, List.countP_map]
  rfl

theorem sum_map_indicator :
    ∀ (l : List Nat) (k : Nat),
      (l.map (fun r => if k = r then (1 : Nat) else 0)).sum = l.count k
  | [], _ => rfl
  | r :: l, k => by
    rw [List.map_cons, List.sum_cons, sum_map_indicator l k, List.count_cons]
    by_cases h : k = r
    · subst h
      simp [Nat.add_comm]
    · have h2 : ¬(r = k) := fun hrk => h hrk.symm
      simp [h, h2]

theorem list_eq_map_range {α : Type} (l : List α) (d : α) :
    l = (List.range l.length).map (fun i => l.getD i d) := by
  apply List.ext_getElem
  · simp
  · intro i h1 h2
    rw [List.getElem_map, List.getElem_range,
      List.getD_eq_getElem?_getD, List.getElem?_eq_getElem h1]
    rfl

theorem countP_row (g : Nat → Nat × Nat) (n : Nat) (hinj : InjOn1 g n)
    {ch : Nat} (h1 : 1 ≤ ch) (h2 : ch ≤ n) (r : Nat) :
    ((List.range (gridMaxCol g n + 1)).map
      (fun c => cell (gridRaw g n) r c)).count (ch : Int)
      = if (g ch).2 = r then 1 else 0 := by
  rw [count_map_int]
  by_cases hr : (g ch).2 = r
  · rw [if_pos hr]
    have hcongr : ∀ c ∈ List.range (gridMaxCol g n + 1),
        (cell (gridRaw g n) r c == (ch : Int)) = true ↔
        (c == (g ch).1) = true := by
      intro c _
      simp only [beq_iff_eq]
      constructor
      · intro hcell
        by_contra hcc
        exact cell_gridRaw_ne g n hinj h1 h2 r c
          (fun hand => hcc hand.2.symm) hcell
      · intro hc
        subst hc
        rw [← hr]
        exact cell_gridRaw_self g n hinj h1 h2
    rw [List.countP_congr hcongr, ← List.count_eq_countP]
    exact List.count_eq_one_of_mem (List.nodup_range _)
      (List.mem_range.mpr (Nat.lt_succ_of_le (coord_col_le h1 h2)))
  · rw [if_neg hr, List.countP_eq_zero.mpr]
    intro c _
    simp only [beq_iff_eq]
    exact cell_gridRaw_ne g n hinj h1 h2 r c (fun hand => hr hand.1)

theorem getD_eq_getElem_of_lt {α : Type} (l : List α) (d : α) {i : Nat}
    (h : i < l.length) : l.getD i d = l[i] := by
  rw [List.getD_eq_getElem?_getD, List.getElem?_eq_getElem h]
  rfl

theorem gridRaw_eq_rows (g : Nat → Nat × Nat) (n : Nat) :
    gridRaw g n = (List.range (gridMaxRow g n + 1)).map
      (fun r => (List.range (gridMaxCol g n + 1)).map
        (fun c => cell (gridRaw g n) r c)) := by
  apply List.ext_getElem
  · simp [gridRaw_length]
  · intro i hi1 hi2
    have hiR : i < gridMaxRow g n + 1 := by
      rwa [gridRaw_length] at hi1
    rw [List.getElem_map, List.getElem_range]
    apply List.ext_getElem
    · have hlen : ((gridRaw g n).getD i []).length = gridMaxCol g n + 1 := by
        rw [gridRaw_rowlen, if_pos hiR]
      rw [getD_eq_getElem_of_lt _ [] hi1] at hlen
      rw [hlen, List.length_map, List.length_range]
    · intro c hc1 hc2
      rw [List.getElem_map, List.getElem_range]
      show _ = cell (gridRaw g n) i c
      unfold cell
      rw [getD_eq_getElem_of_lt _ [] hi1, getD_eq_getElem_of_lt _ (0 : Int) hc1]

theorem gridRaw_count (g : Nat → Nat × Nat) (n : Nat) (hinj : InjOn1 g n)
    {ch : Nat} (h1 : 1 ≤ ch) (h2 : ch ≤ n) :
    (gridRaw g n).flatten.count (ch : Int) = 1 := by
  conv_lhs => rw [gridRaw_eq_rows g n]
  rw [List.count_flatten, List.map_map]
  have hcongr : ∀ r ∈ List.range (gridMaxRow g n + 1),
      (List.count (ch : Int) ∘ fun r => (List.range (gridMaxCol g n + 1)).map
        (fun c => cell (gridRaw g n) r c)) r
        = (fun r => if (g ch).2 = r then (1 : Nat) else 0) r := by
    intro r _
    exact countP_row g n hinj h1 h2 r
  rw [List.map_congr_left hcongr, sum_map_indicator, List.count_eq_one_of_mem
    (List.nodup_range _)
    (List.mem_range.mpr (Nat.lt_succ_of_le (coord_row_le h1 h2)))]

theorem gridOf_count (g : Nat → Nat × Nat) (n : Nat) (hinj : InjOn1 g n)
    {ch : Nat} (h1 : 1 ≤ ch) (h2 : ch ≤ n) :
    (gridOf g n).flatten.count (ch : Int) = 1 := by
  unfold gridOf
  rw [List.count_flatten, List.map_reverse, List.sum_reverse,
    ← List.count_flatten]
  exact gridRaw_count g n hinj h1 h2

theorem gridOf_length (g : Nat → Nat × Nat) (n : Nat) :
    (gridOf g n).length = gridMaxRow g n + 1 := by
  unfold gridOf
  rw [List.length_reverse, gridRaw_length]

theorem gridOf_rowlen (g : Nat → Nat × Nat) (n : Nat) :
    ∀ row ∈ gridOf g n, row.length = gridMaxCol g n + 1 := by
  intro row hrow
  rw [gridOf, List.mem_reverse] at hrow
  obtain ⟨i, hi⟩ := List.mem_iff_getElem?.mp hrow
  have hilt : i < (gridRaw g n).length := by
    by_contra hge
    rw [List.getElem?_eq_none (le_of_not_lt hge)] at hi
    cases hi
  have : (gridRaw g n).getD i [] = row := by
    rw [List.getD_eq_getElem?_getD, hi]
    rfl
  rw [← this, gridRaw_rowlen, if_pos (by rwa [gridRaw_length] at hilt)]

theorem gridOf_headD_len (g : Nat → Nat × Nat) (n : Nat) :
    ((gridOf g n).headD []).length = gridMaxCol g n + 1 := by
  have hne : gridOf g n ≠ [] := by
    intro h
    have := gridOf_length g n
    rw [h] at this
    simp at this
  obtain ⟨a, l, hal⟩ := List.exists_cons_of_ne_nil hne
  rw [hal]
  exact gridOf_rowlen g n a (by rw [hal]; simp)

/-! ### Chunking lemmas for np.split -/

theorem chunks_flatten {α : Type} :
    ∀ (s : Nat) (q : Nat) (l : List α), l.length = s * q →
      ((List.range s).map (fun i => (l.drop (i * q)).take q)).flatten = l
  | 0, q, l, h => by
    simp at h
    simp [h]
  | s + 1, q, l, h => by
    rw [List.range_succ_eq_map, List.map_cons, List.map_map]
    have hstep : ((fun i => (l.drop (i * q)).take q) ∘ Nat.succ)
        = fun i : Nat => ((l.drop q).drop (i * q)).take q := by
      funext i
      simp only [Function.comp_apply, List.drop_drop]
      have hiq : i.succ * q = q + i * q := by
        rw [Nat.succ_mul]
        ring
      rw [hiq]
    rw [hstep, List.flatten_cons, Nat.zero_mul, List.drop_zero]
    have hlen : (l.drop q).length = s * q := by
      rw [List.length_drop, h, Nat.succ_mul]
      omega
    rw [chunks_flatten s q (l.drop q) hlen]
    exact List.take_append_drop q l

theorem count_rowchunks {α : Type} [BEq α] (s q : Nat) (l : List α) (x : α)
    (h : l.length = s * q) :
    (((List.range s).map (fun i => (l.drop (i * q)).take q)).flatten).count x
      = l.count x := by
  rw [chunks_flatten s q l h]

theorem sum_chunk_counts (s q : Nat) (row : List Int) (x : Int)
    (h : row.length = s * q) :
    ((List.range s).map (fun i => ((row.drop (i * q)).take q).count x)).sum
      = row.count x := by
  conv_rhs => rw [← chunks_flatten s q row h]
  rw [List.count_flatten, List.map_map]
  rfl

theorem count_colchunks :
    ∀ (rows : List (List Int)) (s q : Nat) (x : Int),
      (∀ row ∈ rows, row.length = s * q) →
      (((List.range s).map
        (fun i => (rows.map (fun row => (row.drop (i * q)).take q)).flatten)).flatten).count x
        = rows.flatten.count x
  | [], s, q, x, _ => by
    simp
  | row :: rest, s, q, x, h => by
    have hrow := h row (by simp)
    have hrest : ∀ r ∈ rest, r.length = s * q :=
      fun r hr => h r (List.mem_cons_of_mem row hr)
    have hrec := count_colchunks rest s q x hrest
    rw [List.count_flatten, List.map_map] at hrec
    rw [List.flatten_cons, List.count_append, List.count_flatten, List.map_map]
    have hsplit : ∀ i ∈ List.range s,
        (List.count x ∘ fun i =>
          ((row :: rest).map (fun r => (r.drop (i * q)).take q)).flatten) i
          = (fun i => ((row.drop (i * q)).take q).count x
            + (List.count x ∘ fun i =>
                (rest.map (fun r => (r.drop (i * q)).take q)).flatten) i) i := by
      intro i _
      simp only [Function.comp_apply, List.map_cons, List.flatten_cons,
        List.count_append]
    rw [List.map_congr_left hsplit, List.sum_map_add,
      sum_chunk_counts s q row x hrow, hrec]

theorem count_rowchunk_groups (s q : Nat) (grid : List (List Int)) (x : Int)
    (hlen : grid.length = s * q) :
    (((List.range s).map
      (fun i => ((grid.drop (i * q)).take q).flatten)).flatten).count x
      = grid.flatten.count x := by
  have hmm : (List.range s).map (fun i => ((grid.drop (i * q)).take q).flatten)
      = ((List.range s).map (fun i => (grid.drop (i * q)).take q)).map
        List.flatten := by
    rw [List.map_map]
    rfl
  rw [hmm, ← List.flatten_flatten, chunks_flatten s q grid hlen]

/-! ### Reduction helpers for the Except monad -/

theorem exc_ok_bind {α β : Type} (a : α) (k : α → Except String β) :
    (Except.ok a >>= k) = k a := rfl

theorem exc_pure_bind {α β : Type} (a : α) (k : α → Except String β) :
    ((pure a : Except String α) >>= k) = k a := rfl

theorem exc_error_bind {α β : Type} (e : String) (k : α → Except String β) :
    ((Except.error e : Except String α) >>= k) = Except.error e := rfl

theorem exc_throw {α : Type} (e : String) :
    (throw e : Except String α) = Except.error e := rfl

/-! ### generate_flowcell: partition counting -/

theorem generate_count (T : ChannelTables) {fs split axis : Int}
    {groups : List (List Int)}
    (hfs : fs = 126 ∨ fs = 512 ∨ fs = 3000)
    (hinj : InjOn1 (coordFun T fs) fs.toNat)
    (h : generate_flowcell T fs split axis false = .ok groups)
    {ch : Int} (h1 : 1 ≤ ch) (h2 : ch ≤ fs) :
    groups.flatten.count ch = 1 := by
  have hchN : ch = ((ch.toNat : Nat) : Int) := by omega
  have hch1 : 1 ≤ ch.toNat := by omega
  have hch2 : ch.toNat ≤ fs.toNat := by omega
  unfold generate_flowcell at h
  rw [if_neg (by simp)] at h
  rw [get_flowcell_array_ok T hfs, exc_ok_bind] at h
  by_cases hsplit : split ≤ 0
  · rw [if_pos hsplit, exc_throw] at h
    exact Except.noConfusion h
  rw [if_neg hsplit] at h
  dsimp only at h
  by_cases hax0 : axis = 0 ∨ axis = -2
  · rw [if_pos hax0, exc_pure_bind] at h
    by_cases hdvd :
        (gridOf (coordFun T fs) fs.toNat).length % split.toNat ≠ 0
    · rw [if_pos hdvd, exc_throw] at h
      exact Except.noConfusion h
    rw [if_neg hdvd, if_pos hax0] at h
    have hgroups := (Except.ok.inj h).symm
    have hlen : (gridOf (coordFun T fs) fs.toNat).length
        = split.toNat * ((gridOf (coordFun T fs) fs.toNat).length / split.toNat) := by
      refine (Nat.mul_div_cancel' ?_).symm
      exact Nat.dvd_of_mod_eq_zero (by omega)
    rw [hgroups, count_rowchunk_groups _ _ _ _ hlen, hchN]
    exact gridOf_count (coordFun T fs) fs.toNat hinj hch1 hch2
  rw [if_neg hax0] at h
  by_cases hax1 : axis = 1 ∨ axis = -1
  · rw [if_pos hax1, exc_pure_bind] at h
    by_cases hdvd :
        ((gridOf (coordFun T fs) fs.toNat).headD []).length % split.toNat ≠ 0
    · rw [if_pos hdvd, exc_throw] at h
      exact Except.noConfusion h
    rw [if_neg hdvd, if_neg hax0] at h
    have hgroups := (Except.ok.inj h).symm
    rw [hgroups]
    have hC := gridOf_headD_len (coordFun T fs) fs.toNat
    have hrows : ∀ row ∈ gridOf (coordFun T fs) fs.toNat,
        row.length = split.toNat
          * (((gridOf (coordFun T fs) fs.toNat).headD []).length / split.toNat) := by
      intro row hrow
      rw [gridOf_rowlen _ _ row hrow, ← hC]
      refine (Nat.mul_div_cancel' ?_).symm
      exact Nat.dvd_of_mod_eq_zero (by omega)
    rw [count_colchunks _ _ _ _ hrows, hchN]
    exact gridOf_count (coordFun T fs) fs.toNat hinj hch1 hch2
  · rw [if_neg hax1, exc_throw, exc_error_bind] at h
    exact Except.noConfusion h

/-! ### Coordinate-function injectivity and bounds -/

theorem f3000_injOn : InjOn1 f3000 3000 := by
  intro a b h1 h2 h3 h4 heq
  unfold f3000 at heq
  rw [Prod.ext_iff] at heq
  simp only at heq
  omega

theorem coordFun_inj (T : ChannelTables) {fs : Int}
    (hfs : fs = 126 ∨ fs = 512 ∨ fs = 3000)
    (hspec : SpecTablesInjective T) :
    InjOn1 (coordFun T fs) fs.toNat := by
  rcases hfs with h | h | h <;> subst h <;>
    simp only [coordFun] <;> norm_num
  · exact hspec.1
  · exact hspec.2
  · exact f3000_injOn

theorem gridMaxRow_eq (g : Nat → Nat × Nat) (n mr : Nat)
    (hub : ∀ ch, 1 ≤ ch → ch ≤ n → (g ch).2 ≤ mr)
    (hat : ∃ ch, 1 ≤ ch ∧ ch ≤ n ∧ (g ch).2 = mr) :
    gridMaxRow g n = mr := by
  unfold gridMaxRow
  apply foldl_max_eq
  · obtain ⟨ch, hc1, hc2, hc3⟩ := hat
    exact List.mem_map.mpr ⟨_, coord_mem_tripleList hc1 hc2, hc3⟩
  · intro x hx
    obtain ⟨t, ht, rfl⟩ := List.mem_map.mp hx
    obtain ⟨i, hi, rfl⟩ := List.mem_map.mp ht
    have hin := List.mem_range.mp hi
    exact hub (i + 1) (by omega) (by omega)

theorem gridMaxCol_eq (g : Nat → Nat × Nat) (n mc : Nat)
    (hub : ∀ ch, 1 ≤ ch → ch ≤ n → (g ch).1 ≤ mc)
    (hat : ∃ ch, 1 ≤ ch ∧ ch ≤ n ∧ (g ch).1 = mc) :
    gridMaxCol g n = mc := by
  unfold gridMaxCol
  apply foldl_max_eq
  · obtain ⟨ch, hc1, hc2, hc3⟩ := hat
    exact List.mem_map.mpr ⟨_, coord_mem_tripleList hc1 hc2, hc3⟩
  · intro x hx
    obtain ⟨t, ht, rfl⟩ := List.mem_map.mp hx
    obtain ⟨i, hi, rfl⟩ := List.mem_map.mp ht
    have hin := List.mem_range.mp hi
    exact hub (i + 1) (by omega) (by omega)

theorem gridMaxRow_f3000 : gridMaxRow f3000 3000 = 24 := by
  apply gridMaxRow_eq
  · intro ch hc1 hc2
    unfold f3000
    omega
  · exact ⟨250, by omega, by omega, by decide⟩

theorem gridMaxCol_f3000 : gridMaxCol f3000 3000 = 119 := by
  apply gridMaxCol_eq
  · intro ch hc1 hc2
    unfold f3000
    omega
  · exact ⟨3000, by omega, by omega, by decide⟩

/-! ### Odd/even split lemmas -/

theorem pyRange_odds (fs : Int) :
    pyRange 1 (fs + 1) 2
      = (List.range ((fs.toNat + 1) / 2)).map
          (fun k : Nat => (1 : Int) + 2 * k) := by
  unfold pyRange
  have h : ((fs + 1 - 1 + 2 - 1) / 2).toNat = (fs.toNat + 1) / 2 := by omega
  rw [h]

theorem pyRange_evens (fs : Int) :
    pyRange 2 (fs + 1) 2
      = (List.range (fs.toNat / 2)).map
          (fun k : Nat => (2 : Int) + 2 * k) := by
  unfold pyRange
  have h : ((fs + 1 - 2 + 2 - 1) / 2).toNat = fs.toNat / 2 := by omega
  rw [h]

theorem odds_filter :
    ∀ n : Nat,
      (List.range ((n + 1) / 2)).map (fun k : Nat => (1 : Int) + 2 * k)
        = ((List.range n).map (fun i : Nat => (i : Int) + 1)).filter
            (fun k => k % 2 == 1)
  | 0 => rfl
  | n + 1 => by
    rw [List.range_succ, List.map_append, List.filter_append]
    rw [← odds_filter n]
    rcases Nat.even_or_odd n with he | ho
    · obtain ⟨m, hm⟩ := he
      have h1 : (n + 1 + 1) / 2 = (n + 1) / 2 + 1 := by omega
      rw [h1, List.range_succ, List.map_append]
      have h2 : (n + 1) / 2 = m := by omega
      have h3 : (((n : Int) + 1) % 2 == 1) = true := by
        have : (n : Int) = 2 * m := by omega
        rw [this]
        simp only [beq_iff_eq]
        omega
      simp only [List.map_cons, List.map_nil, List.filter_cons, h3, if_pos,
        List.filter_nil]
      rw [h2]
      have h4 : (1 : Int) + 2 * m = (n : Int) + 1 := by omega
      rw [h4]
    · obtain ⟨m, hm⟩ := ho
      have h1 : (n + 1 + 1) / 2 = (n + 1) / 2 := by omega
      rw [h1]
      have h3 : (((n : Int) + 1) % 2 == 1) = false := by
        have : (n : Int) = 2 * m + 1 := by omega
        rw [this]
        simp only [beq_eq_false_iff_ne, ne_eq]
        omega
      simp only [List.map_cons, List.map_nil, List.filter_cons, h3,
        List.filter_nil, if_neg, Bool.false_eq_true, not_false_iff,
        List.append_nil]

theorem evens_filter :
    ∀ n : Nat,
      (List.range (n / 2)).map (fun k : Nat => (2 : Int) + 2 * k)
        = ((List.range n).map (fun i : Nat => (i : Int) + 1)).filter
            (fun k => k % 2 == 0)
  | 0 => rfl
  | n + 1 => by
    rw [List.range_succ, List.map_append, List.filter_append]
    rw [← evens_filter n]
    rcases Nat.even_or_odd n with he | ho
    · obtain ⟨m, hm⟩ := he
      have h1 : (n + 1) / 2 = n / 2 := by omega
      rw [h1]
      have h3 : (((n : Int) + 1) % 2 == 0) = false := by
        have : (n : Int) = 2 * m := by omega
        rw [this]
        simp only [beq_eq_false_iff_ne, ne_eq]
        omega
      simp only [List.map_cons, List.map_nil, List.filter_cons, h3,
        List.filter_nil, if_neg, Bool.false_eq_true, not_false_iff,
        List.append_nil]
    · obtain ⟨m, hm⟩ := ho
      have h1 : (n + 1) / 2 = n / 2 + 1 := by omega
      rw [h1, List.range_succ, List.map_append]
      have h2 : n / 2 = m := by omega
      have h3 : (((n : Int) + 1) % 2 == 0) = true := by
        have : (n : Int) = 2 * m + 1 := by omega
        rw [this]
        simp only [beq_iff_eq]
        omega
      simp only [List.map_cons, List.map_nil, List.filter_cons, h3, if_pos,
        List.filter_nil]
      rw [h2]
      have h4 : (2 : Int) + 2 * m = (n : Int) + 1 := by omega
      rw [h4]

theorem count_channels {fs ch : Int} (h1 : 1 ≤ ch) (h2 : ch ≤ fs) :
    ((List.range fs.toNat).map (fun i : Nat => (i : Int) + 1)).count ch
      = 1 := by
  apply List.count_eq_one_of_mem
  · refine List.Nodup.map ?_ (List.nodup_range fs.toNat)
    intro a b hab
    have hab2 : (a : Int) + 1 = (b : Int) + 1 := hab
    omega
  · exact List.mem_map.mpr ⟨ch.toNat - 1, List.mem_range.mpr (by omega),
      by show ((ch.toNat - 1 : Nat) : Int) + 1 = ch; omega⟩

theorem generate_count_oddeven (T : ChannelTables) {fs split axis : Int}
    {groups : List (List Int)}
    (h : generate_flowcell T fs split axis true = .ok groups)
    {ch : Int} (h1 : 1 ≤ ch) (h2 : ch ≤ fs) :
    groups.flatten.count ch = 1 := by
  unfold generate_flowcell at h
  rw [if_pos rfl] at h
  have hgroups := (Except.ok.inj h).symm
  rw [hgroups]
  have hflat : [pyRange 1 (fs + 1) 2, pyRange 2 (fs + 1) 2].flatten
      = pyRange 1 (fs + 1) 2 ++ pyRange 2 (fs + 1) 2 := by
    simp
  rw [hflat, List.count_append, pyRange_odds, pyRange_evens, odds_filter,
    evens_filter]
  have hpar : ch % 2 = 0 ∨ ch % 2 = 1 := by omega
  rcases hpar with hp | hp
  · have hodd : ((ch % 2 == 1) = false) := by simp [hp]
    have hcnt1 : (((List.range fs.toNat).map
        (fun i : Nat => (i : Int) + 1)).filter
        (fun k => k % 2 == 1)).count ch = 0 := by
      apply List.count_eq_zero_of_not_mem
      intro hmem
      have := (List.mem_filter.mp hmem).2
      rw [hodd] at this
      cases this
    have hcnt2 : (((List.range fs.toNat).map
        (fun i : Nat => (i : Int) + 1)).filter
        (fun k => k % 2 == 0)).count ch = 1 := by
      rw [List.count_filter (by simp [hp])]
      exact count_channels h1 h2
    omega
  · have heven : ((ch % 2 == 0) = false) := by simp [hp]
    have hcnt1 : (((List.range fs.toNat).map
        (fun i : Nat => (i : Int) + 1)).filter
        (fun k => k % 2 == 1)).count ch = 1 := by
      rw [List.count_filter (by simp [hp])]
      exact count_channels h1 h2
    have hcnt2 : (((List.range fs.toNat).map
        (fun i : Nat => (i : Int) + 1)).filter
        (fun k => k % 2 == 0)).count ch = 0 := by
      apply List.count_eq_zero_of_not_mem
      intro hmem
      have := (List.mem_filter.mp hmem).2
      rw [heven] at this
      cases this
    omega

theorem generate_split_le_zero (T : ChannelTables) {fs : Int}
    (split axis : Int) (hfs : fs = 126 ∨ fs = 512 ∨ fs = 3000)
    (hsplit : split ≤ 0) :
    generate_flowcell T fs split axis false
      = .error "split must be a positive integer" := by
  unfold generate_flowcell
  rw [if_neg (by simp), get_flowcell_array_ok T hfs, exc_ok_bind,
    if_pos hsplit, exc_throw]

/-! ### Association-list dictionary lemmas -/

theorem find?_upd_ne {κ α : Type} [BEq κ] [LawfulBEq κ] (k : κ) (v : α)
    (key : κ) (hne : key ≠ k) :
    ∀ m : List (κ × α),
      ((m.map (fun p => if p.1 == k then (k, v) else p)).find?
        (fun p => p.1 == key)) = m.find? (fun p => p.1 == key)
  | [] => rfl
  | p :: m => by
    rw [List.map_cons]
    by_cases hpk : (p.1 == k) = true
    · have hp1 : p.1 = k := by simpa using hpk
      rw [if_pos hpk]
      rw [@List.find?_cons_of_neg _ (fun q => q.1 == key) (k, v) _
          (by simp; exact fun h => hne h.symm),
        @List.find?_cons_of_neg _ (fun q => q.1 == key) p m
          (by simp [hp1]; exact fun h => hne h.symm)]
      exact find?_upd_ne k v key hne m
    · rw [if_neg hpk]
      by_cases hpkey : (p.1 == key) = true
      · rw [@List.find?_cons_of_pos _ (fun q => q.1 == key) p _ hpkey,
          @List.find?_cons_of_pos _ (fun q => q.1 == key) p m hpkey]
      · rw [@List.find?_cons_of_neg _ (fun q => q.1 == key) p _ hpkey,
          @List.find?_cons_of_neg _ (fun q => q.1 == key) p m hpkey]
        exact find?_upd_ne k v key hne m

theorem find?_upd_self {κ α : Type} [BEq κ] [LawfulBEq κ] (k : κ) (v : α) :
    ∀ m : List (κ × α), m.any (fun p => p.1 == k) = true →
      ((m.map (fun p => if p.1 == k then (k, v) else p)).find?
        (fun p => p.1 == k)) = some (k, v)
  | [], h => by simp at h
  | p :: m, h => by
    rw [List.map_cons]
    by_cases hpk : (p.1 == k) = true
    · rw [if_pos hpk, @List.find?_cons_of_pos _ (fun q => q.1 == k) (k, v) _
        (by simp)]
    · rw [if_neg hpk, @List.find?_cons_of_neg _ (fun q => q.1 == k) p _ hpk]
      apply find?_upd_self k v m
      simp only [List.any_cons, hpk, Bool.false_or] at h
      exact h

theorem countP_fst_upd {κ α : Type} [BEq κ] [LawfulBEq κ] (k : κ) (v : α)
    (key : κ) (m : List (κ × α)) :
    (m.map (fun p => if p.1 == k then (k, v) else p)).countP
      (fun p => p.1 == key) = m.countP (fun p => p.1 == key) := by
  rw [List.countP_map]
  apply List.countP_congr
  intro p _
  by_cases hpk : (p.1 == k) = true
  · have hp1 : p.1 = k := by simpa using hpk
    simp [Function.comp, hpk, hp1]
  · simp [Function.comp, hpk]

theorem dget_dupdate {κ α : Type} [BEq κ] [LawfulBEq κ] [DecidableEq κ] (d : List (κ × α))
    (k : κ) (v : α) (key : κ) :
    dget (dupdate d k v) key = if key = k then some v else dget d key := by
  unfold dget dupdate
  by_cases hany : d.any (fun p => p.1 == k) = true
  · rw [if_pos hany]
    by_cases hkey : key = k
    · subst hkey
      rw [find?_upd_self key v d hany, if_pos rfl]
      rfl
    · rw [find?_upd_ne k v key hkey d, if_neg hkey]
  · rw [if_neg hany, List.find?_append]
    by_cases hkey : key = k
    · subst hkey
      have hnone : d.find? (fun p => p.1 == key) = none := by
        rw [List.find?_eq_none]
        intro x hx hP
        exact absurd (List.any_eq_true.mpr ⟨x, hx, hP⟩) hany
      rw [hnone, if_pos rfl]
      simp [List.find?]
    · have hnone2 : (([(k, v)] : List (κ × α)).find?
          (fun p => p.1 == key)) = none := by
        rw [List.find?_eq_none]
        intro x hx hP
        simp at hx
        rw [hx] at hP
        simp at hP
        exact hkey hP.symm
      rw [hnone2, Option.or_none, if_neg hkey]

theorem countP_dupdate {κ α : Type} [BEq κ] [LawfulBEq κ] [DecidableEq κ] (d : List (κ × α))
    (k : κ) (v : α) (key : κ)
    (hinv : d.countP (fun p => p.1 == key) ≤ 1) :
    (dupdate d k v).countP (fun p => p.1 == key)
      = if key = k then 1 else d.countP (fun p => p.1 == key) := by
  unfold dupdate
  by_cases hany : d.any (fun p => p.1 == k) = true
  · rw [if_pos hany, countP_fst_upd]
    by_cases hkey : key = k
    · subst hkey
      rw [if_pos rfl]
      obtain ⟨p, hp, hpk⟩ := List.any_eq_true.mp hany
      have hpos : 0 < d.countP (fun p => p.1 == key) :=
        List.countP_pos_iff.mpr ⟨p, hp, hpk⟩
      omega
    · rw [if_neg hkey]
  · rw [if_neg hany, List.countP_append]
    by_cases hkey : key = k
    · subst hkey
      have hz : d.countP (fun p => p.1 == key) = 0 := by
        rw [List.countP_eq_zero]
        intro p hp hP
        exact absurd (List.any_eq_true.mpr ⟨p, hp, hP⟩) hany
      rw [hz, if_pos rfl]
      simp
    · rw [if_neg hkey]
      have hz2 : (([(k, v)] : List (κ × α)).countP
          (fun p => p.1 == key)) = 0 := by
        rw [List.countP_eq_zero]
        intro p hp hP
        simp at hp
        rw [hp] at hP
        simp at hP
        exact hkey hP.symm
      rw [hz2, add_zero]

theorem dupdate_inv {κ α : Type} [BEq κ] [LawfulBEq κ] [DecidableEq κ] (d : List (κ × α))
    (k : κ) (v : α) (hinv : ∀ key, d.countP (fun p => p.1 == key) ≤ 1) :
    ∀ key, (dupdate d k v).countP (fun p => p.1 == key) ≤ 1 := by
  intro key
  rw [countP_dupdate d k v key (hinv key)]
  by_cases hkey : key = k
  · rw [if_pos hkey]
  · rw [if_neg hkey]
    exact hinv key

theorem dget_some_any {κ α : Type} [BEq κ] (d : List (κ × α)) (k : κ)
    (v : α) (h : dget d k = some v) :
    d.any (fun p => p.1 == k) = true := by
  unfold dget at h
  cases hf : d.find? (fun p => p.1 == k) with
  | none => rw [hf] at h; cases h
  | some p =>
    exact List.any_eq_true.mpr
      ⟨p, @List.mem_of_find?_eq_some _ (fun q => q.1 == k) p d hf,
        @List.find?_some _ (fun q => q.1 == k) p d hf⟩

theorem dupdate_keys {κ α : Type} [BEq κ] [LawfulBEq κ] (d : List (κ × α))
    (k : κ) (v : α) (h : d.any (fun p => p.1 == k) = true) :
    (dupdate d k v).map (fun p => p.1) = d.map (fun p => p.1) := by
  unfold dupdate
  rw [if_pos h, List.map_map]
  apply List.map_congr_left
  intro p _
  by_cases hpk : (p.1 == k) = true
  · have hp1 : p.1 = k := by simpa using hpk
    simp [Function.comp, hpk, hp1]
  · simp [Function.comp, hpk]

/-! ### Lemmas about the mutation loop of get_run_info -/

theorem isTableE_true_iff (o : Option CondEntry) :
    isTableE o = true ↔ ∃ t, o = some (.table t) := by
  cases o with
  | none => simp [isTableE]
  | some e =>
    cases e with
    | scalar v => simp [isTableE]
    | table t => simp [isTableE]

theorem mutateConds_cons_table (f : String → Bool)
    (r : String → List String) (k : String) (ks : List String)
    (ct : CondTable) (cond : CondDict)
    (h : dget ct k = some (.table cond)) :
    mutateConds f r (k :: ks) ct
      = (targetsField f r (dget cond "targets")) >>= fun tm =>
          mutateConds f r ks (dset ct k (.table (condTransform cond tm))) := by
  conv_lhs => unfold mutateConds
  rw [h]
  rfl

theorem mutateConds_cons_other (f : String → Bool)
    (r : String → List String) (k : String) (ks : List String)
    (ct : CondTable) (h : isTableE (dget ct k) = false) :
    mutateConds f r (k :: ks) ct = mutateConds f r ks ct := by
  cases hget : dget ct k with
  | none => conv_lhs => unfold mutateConds; rw [hget]
  | some e =>
    cases e with
    | scalar v => conv_lhs => unfold mutateConds; rw [hget]
    | table t => rw [hget] at h; cases h

theorem mutateConds_frame (f : String → Bool) (r : String → List String) :
    ∀ (ks : List String) (ct ct2 : CondTable),
      mutateConds f r ks ct = .ok ct2 →
      ∀ key, key ∉ ks → dget ct2 key = dget ct key
  | [], ct, ct2, h, key, _ => by
    rw [← Except.ok.inj h]
  | k :: ks, ct, ct2, h, key, hnot => by
    have hkey : key ≠ k := fun e => hnot (e ▸ List.mem_cons_self k ks)
    have hks : key ∉ ks := fun e => hnot (List.mem_cons_of_mem _ e)
    by_cases htab : isTableE (dget ct k) = true
    · obtain ⟨cond, hget⟩ := (isTableE_true_iff _).mp htab
      rw [mutateConds_cons_table f r k ks ct cond hget] at h
      cases htf : targetsField f r (dget cond "targets") with
      | error e => rw [htf, exc_error_bind] at h; exact Except.noConfusion h
      | ok tm =>
        rw [htf, exc_ok_bind] at h
        rw [mutateConds_frame f r ks _ _ h key hks, dset,
          dget_dupdate, if_neg hkey]
    · rw [mutateConds_cons_other f r k ks ct
        (by rwa [Bool.not_eq_true] at htab)] at h
      exact mutateConds_frame f r ks ct ct2 h key hks

theorem mutateConds_keys (f : String → Bool) (r : String → List String) :
    ∀ (ks : List String) (ct ct2 : CondTable),
      mutateConds f r ks ct = .ok ct2 →
      ct2.map (fun p => p.1) = ct.map (fun p => p.1)
  | [], ct, ct2, h => by
    rw [← Except.ok.inj h]
  | k :: ks, ct, ct2, h => by
    by_cases htab : isTableE (dget ct k) = true
    · obtain ⟨cond, hget⟩ := (isTableE_true_iff _).mp htab
      rw [mutateConds_cons_table f r k ks ct cond hget] at h
      cases htf : targetsField f r (dget cond "targets") with
      | error e => rw [htf, exc_error_bind] at h; exact Except.noConfusion h
      | ok tm =>
        rw [htf, exc_ok_bind] at h
        rw [mutateConds_keys f r ks _ _ h, dset, dupdate_keys]
        exact dget_some_any ct k _ hget
    · rw [mutateConds_cons_other f r k ks ct
        (by rwa [Bool.not_eq_true] at htab)] at h
      exact mutateConds_keys f r ks ct ct2 h

theorem mutateConds_isTable (f : String → Bool) (r : String → List String) :
    ∀ (ks : List String) (ct ct2 : CondTable),
      mutateConds f r ks ct = .ok ct2 →
      ∀ key, isTableE (dget ct2 key) = isTableE (dget ct key)
  | [], ct, ct2, h, key => by
    rw [← Except.ok.inj h]
  | k :: ks, ct, ct2, h, key => by
    by_cases htab : isTableE (dget ct k) = true
    · obtain ⟨cond, hget⟩ := (isTableE_true_iff _).mp htab
      rw [mutateConds_cons_table f r k ks ct cond hget] at h
      cases htf : targetsField f r (dget cond "targets") with
      | error e => rw [htf, exc_error_bind] at h; exact Except.noConfusion h
      | ok tm =>
        rw [htf, exc_ok_bind] at h
        rw [mutateConds_isTable f r ks _ _ h key, dset, dget_dupdate]
        by_cases hkey : key = k
        · rw [if_pos hkey, hkey, hget]
          rfl
        · rw [if_neg hkey]
    · rw [mutateConds_cons_other f r k ks ct
        (by rwa [Bool.not_eq_true] at htab)] at h
      exact mutateConds_isTable f r ks ct ct2 h key

theorem mutateConds_value (f : String → Bool) (r : String → List String) :
    ∀ (ks : List String) (ct ct2 : CondTable),
      mutateConds f r ks ct = .ok ct2 → ks.Nodup →
      ∀ k0 ∈ ks, isTableE (dget ct k0) = true →
      ∃ cond tm, dget ct k0 = some (.table cond) ∧
        targetsField f r (dget cond "targets") = .ok tm ∧
        dget ct2 k0 = some (.table (condTransform cond tm))
  | [], _, _, _, _, k0, hk0, _ => absurd hk0 (List.not_mem_nil k0)
  | k :: ks, ct, ct2, h, hnd, k0, hk0, htab => by
    rw [List.nodup_cons] at hnd
    rcases List.mem_cons.mp hk0 with hk | hk
    · subst hk
      obtain ⟨cond, hget⟩ := (isTableE_true_iff _).mp htab
      rw [mutateConds_cons_table f r k0 ks ct cond hget] at h
      cases htf : targetsField f r (dget cond "targets") with
      | error e =>
        rw [htf, exc_error_bind] at h
        exact Except.noConfusion h
      | ok tm =>
        rw [htf, exc_ok_bind] at h
        refine ⟨cond, tm, hget, htf, ?_⟩
        rw [mutateConds_frame f r ks _ _ h k0 hnd.1, dset,
          dget_dupdate, if_pos rfl]
    · have hk0ne : k0 ≠ k := fun e => hnd.1 (e ▸ hk)
      by_cases htabk : isTableE (dget ct k) = true
      · obtain ⟨cond, hget⟩ := (isTableE_true_iff _).mp htabk
        rw [mutateConds_cons_table f r k ks ct cond hget] at h
        cases htf : targetsField f r (dget cond "targets") with
        | error e =>
          rw [htf, exc_error_bind] at h
          exact Except.noConfusion h
        | ok tm =>
          rw [htf, exc_ok_bind] at h
          have htab2 : isTableE
              (dget (dset ct k (.table (condTransform cond tm))) k0)
              = true := by
            rw [dset, dget_dupdate, if_neg hk0ne]
            exact htab
          obtain ⟨cond0, tm0, hc1, hc2, hc3⟩ :=
            mutateConds_value f r ks _ _ h hnd.2 k0 hk htab2
          rw [dset, dget_dupdate, if_neg hk0ne] at hc1
          exact ⟨cond0, tm0, hc1, hc2, hc3⟩
      · rw [mutateConds_cons_other f r k ks ct
          (by rwa [Bool.not_eq_true] at htabk)] at h
        exact mutateConds_value f r ks _ _ h hnd.2 k0 hk htab

/-! ### run_info dict comprehension lemmas -/

theorem runInfoFold_eq_applyEvents (chans : List (List Int))
    (conds : List CondDict) :
    runInfoFold chans conds = applyEvents [] (eventsOf chans conds) := by
  unfold runInfoFold applyEvents eventsOf
  rw [List.foldl_flatten, List.foldl_map]
  have hfun : (fun (m : List (Int × Nat)) (p : Nat × (List Int × CondDict)) =>
      (p.2.1.map (fun ch => (ch, p.1))).foldl
        (fun m2 e => dinsert m2 e.1 e.2) m)
      = fun m p => p.2.1.foldl (fun m2 ch => dinsert m2 ch p.1) m := by
    funext m p
    rw [List.foldl_map]
  rw [hfun]

theorem applyEvents_cons (m : List (Int × Nat)) (e : Int × Nat)
    (evs : List (Int × Nat)) :
    applyEvents m (e :: evs) = applyEvents (dinsert m e.1 e.2) evs := rfl

theorem countP_applyEvents :
    ∀ (evs : List (Int × Nat)) (m : List (Int × Nat)) (key : Int),
      (∀ k2, m.countP (fun p => p.1 == k2) ≤ 1) →
      (applyEvents m evs).countP (fun p => p.1 == key)
        = if evs.any (fun e => e.1 == key) then 1
          else m.countP (fun p => p.1 == key)
  | [], m, key, _ => by
    simp [applyEvents]
  | e :: evs, m, key, hinv => by
    rw [applyEvents_cons]
    unfold dinsert
    rw [countP_applyEvents evs _ key (dupdate_inv m e.1 e.2 hinv)]
    show _ = if ((e :: evs).any fun e => e.1 == key) = true then 1 else _
    rw [List.any_cons]
    by_cases hrest : (evs.any fun p => p.1 == key) = true
    · simp [hrest]
    · rw [Bool.eq_false_iff.mpr hrest]
      by_cases hek : (e.1 == key) = true
      · have hkey : key = e.1 := by
          have h0 : e.1 = key := by simpa using hek
          exact h0.symm
        rw [countP_dupdate m e.1 e.2 key (hinv key), if_pos hkey]
        simp [hek]
      · have hkey : key ≠ e.1 := by
          intro hcontra
          exact hek (by simp [hcontra])
        rw [countP_dupdate m e.1 e.2 key (hinv key), if_neg hkey]
        simp [hek]

theorem lookup_applyEvents :
    ∀ (evs : List (Int × Nat)) (m : List (Int × Nat)) (key : Int),
      mlookup (applyEvents m evs) key
        = evs.foldl (fun acc e => if e.1 == key then some e.2 else acc)
            (mlookup m key)
  | [], _, _ => rfl
  | e :: evs, m, key => by
    rw [applyEvents_cons, lookup_applyEvents evs _ key, List.foldl_cons]
    have hinit : mlookup (dinsert m e.1 e.2) key
        = if e.1 == key then some e.2 else mlookup m key := by
      show dget (dupdate m e.1 e.2) key = _
      rw [dget_dupdate]
      by_cases hek : (e.1 == key) = true
      · have h1 : key = e.1 := by
          have := (by simpa using hek : e.1 = key)
          exact this.symm
        rw [if_pos h1, if_pos hek]
      · have h1 : key ≠ e.1 := by
          intro hcontra
          exact hek (by simp [hcontra])
        rw [if_neg h1, if_neg hek]
        rfl
    rw [hinit]

theorem foldl_opt_mem :
    ∀ (evs : List (Int × Nat)) (acc : Option Nat) (key : Int) (v : Nat),
      evs.foldl (fun acc e => if e.1 == key then some e.2 else acc) acc
        = some v →
      (key, v) ∈ evs ∨ acc = some v
  | [], _, _, _, h => Or.inr h
  | e :: evs, acc, key, v, h => by
    rw [List.foldl_cons] at h
    rcases foldl_opt_mem evs _ key v h with hmem | hacc
    · exact Or.inl (List.mem_cons_of_mem e hmem)
    · by_cases hek : (e.1 == key) = true
      · rw [if_pos hek] at hacc
        have hv := Option.some.inj hacc
        have he1 : e.1 = key := by simpa using hek
        left
        have he : (key, v) = e := by
          rw [← he1, ← hv]
        rw [he]
        exact List.mem_cons_self e evs
      · rw [if_neg hek] at hacc
        exact Or.inr hacc

theorem mlookup_some_of_countP_pos (m : List (Int × Nat)) (key : Int)
    (h : 0 < m.countP (fun p => p.1 == key)) :
    ∃ v, mlookup m key = some v := by
  obtain ⟨p, hp, hpk⟩ := List.countP_pos_iff.mp h
  cases hf : m.find? (fun q => q.1 == key) with
  | none =>
    rw [List.find?_eq_none] at hf
    exact absurd hpk (hf p hp)
  | some q =>
    refine ⟨q.2, ?_⟩
    show dget m key = some q.2
    unfold dget
    rw [hf]
    rfl

theorem mem_eventsOf {chans : List (List Int)} {conds : List CondDict}
    {ch : Int} {i : Nat} (h : (ch, i) ∈ eventsOf chans conds) :
    ∃ grp cond, (chans.zip conds)[i]? = some (grp, cond) ∧ ch ∈ grp := by
  unfold eventsOf at h
  obtain ⟨sub, hsub, hmem⟩ := List.mem_flatten.mp h
  obtain ⟨p, hp, rfl⟩ := List.mem_map.mp hsub
  obtain ⟨ch0, hch0, heq⟩ := List.mem_map.mp hmem
  have hch : ch0 = ch := congrArg Prod.fst heq
  have hpi : p.1 = i := congrArg Prod.snd heq
  have hzip := List.mem_enum_iff_getElem?.mp hp
  rw [hpi] at hzip
  exact ⟨p.2.1, p.2.2, by rw [hzip], by rw [← hch]; exact hch0⟩

theorem eventsOf_key_any {chans : List (List Int)} {conds : List CondDict}
    {ch : Int} (hlen : chans.length ≤ conds.length)
    (hmem : ch ∈ chans.flatten) :
    (eventsOf chans conds).any (fun e => e.1 == ch) = true := by
  obtain ⟨grp, hgrp, hchgrp⟩ := List.mem_flatten.mp hmem
  obtain ⟨j, hj⟩ := List.mem_iff_getElem?.mp hgrp
  have hjlt : j < chans.length := by
    by_contra hge
    rw [List.getElem?_eq_none (le_of_not_lt hge)] at hj
    cases hj
  have hcondj : ∃ c, conds[j]? = some c := by
    have hjc : j < conds.length := lt_of_lt_of_le hjlt hlen
    exact ⟨conds[j], List.getElem?_eq_getElem hjc⟩
  obtain ⟨c, hc⟩ := hcondj
  have hzip : (chans.zip conds)[j]? = some (grp, c) :=
    List.getElem?_zip_eq_some.mpr ⟨hj, hc⟩
  have henum : ((j, (grp, c)) : Nat × (List Int × CondDict))
      ∈ (chans.zip conds).enum :=
    List.mem_enum_iff_getElem?.mpr hzip
  refine List.any_eq_true.mpr ⟨(ch, j), ?_, by simp⟩
  unfold eventsOf
  refine List.mem_flatten.mpr ⟨grp.map (fun ch2 => (ch2, j)), ?_, ?_⟩
  · exact List.mem_map.mpr ⟨(j, (grp, c)), henum, rfl⟩
  · exact List.mem_map.mpr ⟨ch, hchgrp, rfl⟩

/-! ### Lengths of the two zip sides in get_run_info -/

theorem length_filterMap_eq {α β : Type} (f : α → Option β) :
    ∀ l : List α, (l.filterMap f).length = l.countP (fun a => (f a).isSome)
  | [] => rfl
  | a :: l => by
    rw [List.filterMap_cons, List.countP_cons]
    cases hf : f a with
    | none => simp [hf, length_filterMap_eq f l]
    | some b => simp [hf, length_filterMap_eq f l]

theorem splitCondsOf_length (sortedKeys : List String) (ct1 : CondTable) :
    (splitCondsOf sortedKeys ct1).length
      = sortedKeys.countP (fun k => isTableE (dget ct1 k)) := by
  unfold splitCondsOf
  rw [length_filterMap_eq]
  apply List.countP_congr
  intro k _
  cases hget : dget ct1 k with
  | none => simp [isTableE]
  | some e =>
    cases e with
    | scalar v => simp [isTableE]
    | table t => simp [isTableE]

theorem sortedKeysOf_perm (shuffle : List String → List String)
    (maintain : Bool) (ct1 : CondTable)
    (hsh : ∀ l, (shuffle l).Perm l) :
    (sortedKeysOf shuffle maintain ct1).Perm (ct1.map (fun p => p.1)) := by
  unfold sortedKeysOf
  by_cases hm : maintain = true
  · rw [if_pos hm]
    exact List.perm_insertionSort _ _
  · rw [if_neg hm]
    exact hsh _

theorem tableKeys_length (ct : CondTable) :
    (tableKeys ct).length
      = (ct.map (fun p => p.1)).countP (fun k => isTableE (dget ct k)) := by
  unfold tableKeys
  rw [List.countP_eq_length_filter]

theorem generate_ok_length (T : ChannelTables) {fs split axis : Int}
    {groups : List (List Int)}
    (hfs : fs = 126 ∨ fs = 512 ∨ fs = 3000)
    (h : generate_flowcell T fs split axis false = .ok groups) :
    groups.length = split.toNat := by
  unfold generate_flowcell at h
  rw [if_neg (by simp)] at h
  rw [get_flowcell_array_ok T hfs, exc_ok_bind] at h
  by_cases hsplit : split ≤ 0
  · rw [if_pos hsplit, exc_throw] at h
    exact Except.noConfusion h
  rw [if_neg hsplit] at h
  dsimp only at h
  by_cases hax0 : axis = 0 ∨ axis = -2
  · rw [if_pos hax0, exc_pure_bind] at h
    by_cases hdvd :
        (gridOf (coordFun T fs) fs.toNat).length % split.toNat ≠ 0
    · rw [if_pos hdvd, exc_throw] at h
      exact Except.noConfusion h
    rw [if_neg hdvd, if_pos hax0] at h
    rw [← Except.ok.inj h, List.length_map, List.length_range]
  rw [if_neg hax0] at h
  by_cases hax1 : axis = 1 ∨ axis = -1
  · rw [if_pos hax1, exc_pure_bind] at h
    by_cases hdvd :
        ((gridOf (coordFun T fs) fs.toNat).headD []).length % split.toNat ≠ 0
    · rw [if_pos hdvd, exc_throw] at h
      exact Except.noConfusion h
    rw [if_neg hdvd, if_neg hax0] at h
    rw [← Except.ok.inj h, List.length_map, List.length_range]
  · rw [if_neg hax1, exc_throw, exc_error_bind] at h
    exact Except.noConfusion h

/-! ### Characterization of a successful get_run_info call -/

theorem get_run_info_ok {T : ChannelTables} {isFile : String → Bool}
    {readLines : String → List String} {shuffle : List String → List String}
    {toml : TomlDict} {nc : Int} {r : RunInfoResult}
    (h : get_run_info T isFile readLines shuffle toml nc = .ok r) :
    ∃ ct ax chans ct1,
      dget toml "conditions" = some (.table ct) ∧
      axisExtract ct = .ok ax ∧
      generate_flowcell T nc ((tableKeys ct).length : Int) ax false
        = .ok chans ∧
      mutateConds isFile readLines (tableKeys ct) ct = .ok ct1 ∧
      r = ⟨runInfoFold chans
            (splitCondsOf (sortedKeysOf shuffle (maintainOf ct) ct1) ct1),
          splitCondsOf (sortedKeysOf shuffle (maintainOf ct) ct1) ct1,
          dget ct1 "reference",
          dset toml "conditions" (.table ct1)⟩ := by
  unfold get_run_info at h
  cases hc : dget toml "conditions" with
  | none =>
    rw [hc] at h
    simp only [exc_throw, exc_error_bind, exc_ok_bind, exc_pure_bind] at h
    exact Except.noConfusion h
  | some entry =>
    rw [hc] at h
    cases entry with
    | scalar v =>
      simp only [exc_throw, exc_error_bind, exc_ok_bind, exc_pure_bind] at h
      exact Except.noConfusion h
    | table ct =>
      simp only [exc_throw, exc_error_bind, exc_ok_bind, exc_pure_bind] at h
      cases hax : axisExtract ct with
      | error e =>
        rw [hax, exc_error_bind] at h
        exact Except.noConfusion h
      | ok ax =>
        rw [hax, exc_ok_bind] at h
        cases hgen : generate_flowcell T nc ((tableKeys ct).length : Int)
            ax false with
        | error e =>
          rw [hgen, exc_error_bind] at h
          exact Except.noConfusion h
        | ok chans =>
          rw [hgen, exc_ok_bind] at h
          cases hmut : mutateConds isFile readLines (tableKeys ct) ct with
          | error e =>
            rw [hmut, exc_error_bind] at h
            exact Except.noConfusion h
          | ok ct1 =>
            rw [hmut, exc_ok_bind] at h
            exact ⟨ct, ax, chans, ct1, rfl, hax, hgen, hmut,
              (Except.ok.inj h).symm⟩

theorem get_run_info_no_conditions {T : ChannelTables}
    {isFile : String → Bool} {readLines : String → List String}
    {shuffle : List String → List String} {toml : TomlDict} {nc : Int}
    (h : dget toml "conditions" = none) :
    get_run_info T isFile readLines shuffle toml nc
      = .error "KeyError: conditions" := by
  unfold get_run_info
  rw [h]
  simp only [exc_throw, exc_error_bind, exc_ok_bind, exc_pure_bind]

theorem dget_none_iff_keys {α : Type} (d : List (String × α)) (k : String) :
    dget d k = none ↔ ∀ key ∈ d.map (fun p => p.1), key ≠ k := by
  unfold dget
  rw [Option.map_eq_none', List.find?_eq_none]
  constructor
  · intro h key hkey
    obtain ⟨p, hp, rfl⟩ := List.mem_map.mp hkey
    intro hcontra
    exact h p hp (by simp [hcontra])
  · intro h p hp hP
    exact h p.1 (List.mem_map.mpr ⟨p, hp, rfl⟩) (by simpa using hP)

theorem tableKeys_isTable (ct : CondTable) (k : String)
    (hk : k ∈ tableKeys ct) : isTableE (dget ct k) = true :=
  (List.mem_filter.mp hk).2

theorem condTransform_targets (cond : CondDict) (tm : TargetMap) :
    dget (condTransform cond tm) "targets"
      = some (.strSet (contigsOf tm)) := by
  unfold condTransform dset
  rw [dget_dupdate, if_pos rfl]

theorem condTransform_coords (cond : CondDict) (tm : TargetMap) :
    dget (condTransform cond tm) "coords" = some (.targetMap tm) := by
  unfold condTransform dset
  rw [dget_dupdate, if_neg (by decide), dget_dupdate, if_pos rfl]

theorem condTransform_other (cond : CondDict) (tm : TargetMap)
    (key : String) (h1 : key ≠ "targets") (h2 : key ≠ "coords") :
    dget (condTransform cond tm) key = dget cond key := by
  unfold condTransform dset
  rw [dget_dupdate, if_neg h1, dget_dupdate, if_neg h2]

/-! ### The round-trip property of get_run_info -/

theorem get_run_info_round (T : ChannelTables) {isFile : String → Bool}
    {readLines : String → List String} {shuffle : List String → List String}
    {toml : TomlDict} {nc : Int} {r : RunInfoResult}
    (hfs : nc = 126 ∨ nc = 512 ∨ nc = 3000)
    (hspec : SpecTablesInjective T)
    (hsh : ∀ l, (shuffle l).Perm l)
    (h : get_run_info T isFile readLines shuffle toml nc = .ok r)
    {ch : Int} (h1 : 1 ≤ ch) (h2 : ch ≤ nc) :
    keysCount r.run_info ch = 1 ∧
    ∃ ct ax chans i grp,
      dget toml "conditions" = some (.table ct) ∧
      axisExtract ct = .ok ax ∧
      generate_flowcell T nc ((tableKeys ct).length : Int) ax false
        = .ok chans ∧
      mlookup r.run_info ch = some i ∧ chans[i]? = some grp ∧ ch ∈ grp := by
  obtain ⟨ct, ax, chans, ct1, hc, hax, hgen, hmut, hr⟩ := get_run_info_ok h
  have hcount := generate_count T hfs (coordFun_inj T hfs hspec) hgen h1 h2
  have hmem : ch ∈ chans.flatten := by
    have hpos : 0 < chans.flatten.count ch := by omega
    exact List.count_pos_iff.mp hpos
  have hchanlen : chans.length = (tableKeys ct).length := by
    have := generate_ok_length T hfs hgen
    omega
  have hcondlen :
      (splitCondsOf (sortedKeysOf shuffle (maintainOf ct) ct1) ct1).length
        = (tableKeys ct).length := by
    rw [splitCondsOf_length,
      List.Perm.countP_eq _ (sortedKeysOf_perm shuffle (maintainOf ct) ct1 hsh),
      mutateConds_keys isFile readLines _ _ _ hmut,
      List.countP_congr (fun k _ => by
        rw [mutateConds_isTable isFile readLines _ _ _ hmut k]),
      tableKeys_length]
  have hlen : chans.length
      ≤ (splitCondsOf (sortedKeysOf shuffle (maintainOf ct) ct1) ct1).length := by
    omega
  have hany := @eventsOf_key_any chans
    (splitCondsOf (sortedKeysOf shuffle (maintainOf ct) ct1) ct1) ch
    hlen hmem
  have hruninfo : r.run_info = runInfoFold chans
      (splitCondsOf (sortedKeysOf shuffle (maintainOf ct) ct1) ct1) := by
    rw [hr]
  have hinv : ∀ k2 : Int,
      ([] : List (Int × Nat)).countP (fun p => p.1 == k2) ≤ 1 := by
    intro k2
    simp
  have hkc : keysCount r.run_info ch = 1 := by
    rw [hruninfo]
    unfold keysCount
    rw [runInfoFold_eq_applyEvents, countP_applyEvents _ _ _ hinv,
      if_pos hany]
  refine ⟨hkc, ?_⟩
  have hpos : 0 < r.run_info.countP (fun p => p.1 == ch) := by
    unfold keysCount at hkc
    omega
  obtain ⟨i, hi⟩ := mlookup_some_of_countP_pos _ _ hpos
  have hiev : (ch, i) ∈ eventsOf chans
      (splitCondsOf (sortedKeysOf shuffle (maintainOf ct) ct1) ct1) := by
    have hlook := hi
    rw [hruninfo, runInfoFold_eq_applyEvents, lookup_applyEvents] at hlook
    rcases foldl_opt_mem _ _ _ _ hlook with hmem2 | habs
    · exact hmem2
    · exact absurd habs (by simp [mlookup, dget])
  obtain ⟨grp, cond, hzip, hgrp⟩ := mem_eventsOf hiev
  have hchansi : chans[i]? = some grp :=
    (List.getElem?_zip_eq_some.mp hzip).1
  exact ⟨ct, ax, chans, i, grp, hc, hax, hgen, hi, hchansi, hgrp⟩

/-! ### get_targets on a non-file string: character iteration -/

theorem splitOnCharList_single (c : Char) (h : c ≠ ',') :
    splitOnCharList ',' [c] = [[c]] := by
  simp [splitOnCharList, h]

theorem pySplit_single (c : Char) (h : c ≠ ',') :
    pySplitComma (String.mk [c]) = [String.mk [c]] := by
  unfold pySplitComma
  rw [splitOnCharList_single c h]
  rfl

theorem descriptorStep_single (m : TargetMap) (c : Char) (h : c ≠ ',') :
    descriptorStep m (String.mk [c])
      = .ok (m ++ [("+", String.mk [c], defaultTuple),
                   ("-", String.mk [c], defaultTuple)]) := by
  unfold descriptorStep
  rw [pySplit_single c h]

theorem descriptorStep_commaChar (m : TargetMap) :
    descriptorStep m (String.mk [',']) = .ok (m ++ [("", "", [])]) := rfl

/-- The two entries a coordinate-free descriptor for one character adds. -/
def charPair (c : Char) : List (String × String × TargetTuple) :=
  [("+", String.mk [c], defaultTuple), ("-", String.mk [c], defaultTuple)]

theorem get_targets_chars_ok :
    ∀ (cs : List Char) (m : TargetMap),
      ∃ m2, (cs.map (fun c => String.mk [c])).foldlM descriptorStep m
        = .ok m2
  | [], m => ⟨m, rfl⟩
  | c :: cs, m => by
    rw [List.map_cons, List.foldlM_cons]
    by_cases hc : c = ','
    · subst hc
      rw [descriptorStep_commaChar, exc_ok_bind]
      exact get_targets_chars_ok cs _
    · rw [descriptorStep_single m c hc, exc_ok_bind]
      exact get_targets_chars_ok cs _

theorem get_targets_chars_entries :
    ∀ (cs : List Char) (m : TargetMap), (∀ c ∈ cs, c ≠ ',') →
      (cs.map (fun c => String.mk [c])).foldlM descriptorStep m
        = .ok (m ++ (cs.map charPair).flatten)
  | [], m, _ => by
    rw [List.map_nil, List.foldlM_nil, List.map_nil, List.flatten_nil,
      List.append_nil]
    rfl
  | c :: cs, m, h => by
    rw [List.map_cons, List.foldlM_cons,
      descriptorStep_single m c (h c (by simp)), exc_ok_bind,
      get_targets_chars_entries cs _
        (fun c2 hc2 => h c2 (List.mem_cons_of_mem c hc2))]
    rw [List.map_cons, List.flatten_cons, ← List.append_assoc]
    rfl

theorem get_targets_str (isFile : String → Bool)
    (readLines : String → List String) (s : String)
    (hnf : isFile s = false) (hnc : ∀ c ∈ s.data, c ≠ ',') :
    get_targets isFile readLines (.ofStr s)
      = .ok ((s.data.map charPair).flatten) := by
  unfold get_targets
  dsimp only
  rw [hnf]
  simp only [Bool.false_eq_true, if_false]
  exact get_targets_chars_entries s.data [] hnc

theorem tmTuples_append (m1 m2 : TargetMap) (strand ctg : String) :
    tmTuples (m1 ++ m2) strand ctg
      = tmTuples m1 strand ctg ++ tmTuples m2 strand ctg := by
  unfold tmTuples
  rw [List.filter_append, List.map_append]

theorem tmTuples_charPairs :
    ∀ (cs : List Char) (c : Char) (strand : String),
      strand = "+" ∨ strand = "-" →
      tmTuples ((cs.map charPair).flatten) strand (String.mk [c])
        = List.replicate (cs.count c) defaultTuple
  | [], _, _, _ => rfl
  | c2 :: cs, c, strand, hs => by
    rw [List.map_cons, List.flatten_cons, tmTuples_append,
      tmTuples_charPairs cs c strand hs, List.count_cons]
    by_cases hc : c2 = c
    · subst hc
      have hone : tmTuples (charPair c2) strand (String.mk [c2])
          = [defaultTuple] := by
        rcases hs with hs | hs <;> subst hs <;>
          simp [tmTuples, charPair]
      rw [hone]
      simp [List.replicate_succ]
    · have hzero : tmTuples (charPair c2) strand (String.mk [c])
          = [] := by
        have hne : (String.mk [c2] == String.mk [c]) = false := by
          simp only [beq_eq_false_iff_ne, ne_eq]
          intro hcontra
          have hdata : [c2] = [c] := congrArg String.data hcontra
          exact hc (by simpa using hdata)
        rcases hs with hs | hs <;> subst hs <;>
          simp [tmTuples, charPair, hne]
      rw [hzero]
      simp [hc]

/-- The entries one character of a non-file string appends: a comma
    yields the empty-token entry, any other character the two default
    strand entries. -/
def charEntries (c : Char) : List (String × String × TargetTuple) :=
  if c = ',' then [("", "", [])] else charPair c

theorem get_targets_chars_all :
    ∀ (cs : List Char) (m : TargetMap),
      (cs.map (fun c => String.mk [c])).foldlM descriptorStep m
        = .ok (m ++ (cs.map charEntries).flatten)
  | [], m => by
    rw [List.map_nil, List.foldlM_nil, List.map_nil, List.flatten_nil,
      List.append_nil]
    rfl
  | c :: cs, m => by
    rw [List.map_cons, List.foldlM_cons]
    by_cases hc : c = ','
    · subst hc
      rw [descriptorStep_commaChar, exc_ok_bind, get_targets_chars_all cs _,
        List.map_cons, List.flatten_cons]
      simp [charEntries]
    · rw [descriptorStep_single m c hc, exc_ok_bind,
        get_targets_chars_all cs _, List.map_cons, List.flatten_cons]
      simp [charEntries, hc, charPair]

theorem get_targets_str_all (isFile : String → Bool)
    (readLines : String → List String) (s : String)
    (hnf : isFile s = false) :
    get_targets isFile readLines (.ofStr s)
      = .ok ((s.data.map charEntries).flatten) := by
  unfold get_targets
  dsimp only
  rw [hnf]
  simp only [Bool.false_eq_true, if_false]
  exact get_targets_chars_all s.data []

theorem tmTuples_charEntries :
    ∀ (cs : List Char) (c : Char), c ≠ ',' →
      ∀ strand : String, strand = "+" ∨ strand = "-" →
      tmTuples ((cs.map charEntries).flatten) strand (String.mk [c])
        = List.replicate (cs.count c) defaultTuple
  | [], _, _, _, _ => rfl
  | c2 :: cs, c, hc, strand, hs => by
    rw [List.map_cons, List.flatten_cons, tmTuples_append,
      tmTuples_charEntries cs c hc strand hs, List.count_cons]
    by_cases h2 : c2 = ','
    · subst h2
      have hzero : tmTuples (charEntries ',') strand (String.mk [c])
          = [] := by
        rcases hs with hs | hs <;> subst hs <;> simp [tmTuples, charEntries]
      rw [hzero]
      simp [Ne.symm hc]
    · have hch : charEntries c2 = charPair c2 := by
        simp [charEntries, h2]
      rw [hch]
      by_cases hcc : c2 = c
      · subst hcc
        have hone : tmTuples (charPair c2) strand (String.mk [c2])
            = [defaultTuple] := by
          rcases hs with hs | hs <;> subst hs <;> simp [tmTuples, charPair]
        rw [hone]
        simp [List.replicate_succ]
      · have hzero : tmTuples (charPair c2) strand (String.mk [c])
            = [] := by
          have hne2 : (String.mk [c2] == String.mk [c]) = false := by
            simp only [beq_eq_false_iff_ne, ne_eq]
            intro hcontra
            have hdata : [c2] = [c] := congrArg String.data hcontra
            exact hcc (by simpa using hdata)
          rcases hs with hs | hs <;> subst hs <;>
            simp [tmTuples, charPair, hne2]
        rw [hzero]
        simp [hcc]

/-! ### Concrete-instance helper lemmas for witnesses -/

theorem int_toNat_126 : (126 : Int).toNat = 126 := rfl

theorem int_toNat_512 : (512 : Int).toNat = 512 := rfl

theorem int_toNat_3000 : (3000 : Int).toNat = 3000 := rfl

theorem coordFun_126 (T : ChannelTables) : coordFun T 126 = T.flongle := by
  unfold coordFun
  norm_num

theorem coordFun_512 (T : ChannelTables) : coordFun T 512 = T.minion := by
  unfold coordFun
  norm_num

theorem coordFun_3000 (T : ChannelTables) : coordFun T 3000 = f3000 := by
  unfold coordFun
  norm_num

theorem dummyTables_inj : SpecTablesInjective dummyTables := by
  constructor
  · intro a b h1 h2 h3 h4 heq
    have e1 : (a - 1) % 13 = (b - 1) % 13 := congrArg Prod.fst heq
    have e2 : (a - 1) / 13 = (b - 1) / 13 := congrArg Prod.snd heq
    omega
  · intro a b h1 h2 h3 h4 heq
    have e1 : (a - 1) % 32 = (b - 1) % 32 := congrArg Prod.fst heq
    have e2 : (a - 1) / 32 = (b - 1) / 32 := congrArg Prod.snd heq
    omega

theorem dummyTables_shape : SpecTablesShape dummyTables := by
  refine ⟨⟨?_, ⟨13, by omega, by omega, by decide⟩,
      ⟨118, by omega, by omega, by decide⟩⟩,
    ⟨?_, ⟨32, by omega, by omega, by decide⟩,
      ⟨481, by omega, by omega, by decide⟩⟩⟩
  · intro ch hc1 hc2
    constructor
    · show (ch - 1) % 13 ≤ 12
      omega
    · show (ch - 1) / 13 ≤ 9
      omega
  · intro ch hc1 hc2
    constructor
    · show (ch - 1) % 32 ≤ 31
      omega
    · show (ch - 1) / 32 ≤ 15
      omega

/-! ### Claim theorems -/

/-- C2: for every channel with 1 <= channel <= 3000, get_coords with
    flowcell_size 3000 returns exactly (column, row) where, with
    block_index = (channel-1) / 250 and offset = (channel-1) % 250, the
    row is offset / 10 and the column is offset % 10 + block_index * 10
    (floor division and mod on integers). -/
theorem claim_C2_promethion_coords (T : ChannelTables) (ch : Int)
    (h1 : 1 ≤ ch) (h2 : ch ≤ 3000) :
    ∃ column row : Nat, get_coords T ch 3000 = .ok (column, row) ∧
      (row : Int) = (ch - 1) % 250 / 10 ∧
      (column : Int) = (ch - 1) % 250 % 10 + (ch - 1) / 250 * 10 := by
  refine ⟨(coordFun T 3000 ch.toNat).1, (coordFun T 3000 ch.toNat).2,
    get_coords_recognized T (by norm_num) h1 h2, ?_, ?_⟩
  · rw [coordFun_3000]
    show (((ch.toNat - 1) % 250 / 10 : Nat) : Int) = (ch - 1) % 250 / 10
    omega
  · rw [coordFun_3000]
    show (((ch.toNat - 1) % 250 % 10 + (ch.toNat - 1) / 250 * 10 : Nat) : Int)
      = (ch - 1) % 250 % 10 + (ch - 1) / 250 * 10
    omega

/-- C2 witness: channel 1337 on a PromethION flowcell sits in block 5 at
    offset 86, i.e. column 56, row 8. -/
theorem claim_C2_witness :
    get_coords dummyTables 1337 3000 = .ok (56, 8) := by
  obtain ⟨column, row, heq, hrow, hcol⟩ :=
    claim_C2_promethion_coords dummyTables 1337 (by norm_num) (by norm_num)
  have hc : column = 56 := by omega
  have hr : row = 8 := by omega
  rw [hc, hr] at heq
  exact heq

/-- C6 (amended): a channel out of range always raises the out-of-range
    error, and an unrecognized flowcell_size raises the unrecognized-size
    error only when the channel is inside [1, flowcell_size]; when both
    conditions fail the range check wins, so the original claim's
    "regardless of the channel value" is too strong. -/
theorem claim_C6_coord_errors (T : ChannelTables) (ch fs : Int) :
    ((ch ≤ 0 ∨ ch > fs) →
      get_coords T ch fs
        = .error "channel cannot be below 0 or above flowcell_size") ∧
    (1 ≤ ch → ch ≤ fs → fs ≠ 126 → fs ≠ 512 → fs ≠ 3000 →
      get_coords T ch fs = .error "flowcell_size is not recognised") :=
  ⟨fun h => get_coords_oob T h,
   fun a b c d e => get_coords_unrecognized T a b c d e⟩

/-- C6 counterexample: at channel 0 with the unrecognized size 100 the
    code raises the out-of-range error, not the unrecognized-size error
    that the claim requires for every channel value. -/
theorem claim_C6_counterexample :
    get_coords dummyTables 0 100
      = .error "channel cannot be below 0 or above flowcell_size" ∧
    get_coords dummyTables 0 100
      ≠ .error "flowcell_size is not recognised" := by
  constructor
  · decide
  · decide

/-- C6 witness: both amended error branches at concrete inputs. -/
theorem claim_C6_witness :
    get_coords dummyTables (-3) 100
      = .error "channel cannot be below 0 or above flowcell_size" ∧
    get_coords dummyTables 7 100
      = .error "flowcell_size is not recognised" :=
  ⟨(claim_C6_coord_errors dummyTables (-3) 100).1 (by norm_num),
   (claim_C6_coord_errors dummyTables 7 100).2 (by norm_num) (by norm_num)
     (by norm_num) (by norm_num) (by norm_num)⟩

/-- C4 (amended): the grid is built before the split check, so the
    invalid-split error for split <= 0 is only reached for a recognized
    flowcell_size; it is then raised for every axis value. -/
theorem claim_C4_split_error (T : ChannelTables) (fs split axis : Int)
    (hfs : fs = 126 ∨ fs = 512 ∨ fs = 3000) (hsplit : split ≤ 0) :
    generate_flowcell T fs split axis false
      = .error "split must be a positive integer" :=
  generate_split_le_zero T split axis hfs hsplit

/-- C4 counterexample: with the unrecognized flowcell_size 128 and
    split 0, generate_flowcell raises the unrecognized-size error from the
    grid construction, not the invalid-split error the claim requires. -/
theorem claim_C4_counterexample :
    generate_flowcell dummyTables 128 0 1 false
      = .error "flowcell_size is not recognised" ∧
    generate_flowcell dummyTables 128 0 1 false
      ≠ .error "split must be a positive integer" := by
  constructor
  · decide
  · decide

/-- C4 witness: split 0 on a MinION flowcell with an arbitrary axis. -/
theorem claim_C4_witness :
    generate_flowcell dummyTables 512 0 5 false
      = .error "split must be a positive integer" :=
  claim_C4_split_error dummyTables 512 0 5 (by norm_num) (by norm_num)

/-- C10: with odd_even true, generate_flowcell never fails for any
    flowcell_size, split and axis, and returns exactly the ascending odd
    channels of [1, flowcell_size] followed by the ascending even ones. -/
theorem claim_C10_odd_even (T : ChannelTables) (fs split axis : Int) :
    generate_flowcell T fs split axis true
      = .ok [((List.range fs.toNat).map (fun i : Nat => (i : Int) + 1)).filter
               (fun k => k % 2 == 1),
             ((List.range fs.toNat).map (fun i : Nat => (i : Int) + 1)).filter
               (fun k => k % 2 == 0)] := by
  unfold generate_flowcell
  rw [if_pos rfl, pyRange_odds, pyRange_evens, odds_filter, evens_filter]

/-- C8: parsing the single descriptor chr1,10,20,+ yields exactly one
    interval (10, 20) for chr1 on the + strand and no - strand entry;
    parsing the bare contig chr1 yields (0, inf) on both strands. -/
theorem claim_C8_parse_targets (isFile : String → Bool)
    (readLines : String → List String) :
    (get_targets isFile readLines (.ofList ["chr1,10,20,+"])).map
      (fun m => (tmTuples m "+" "chr1", tmHasStrand m "-"))
      = .ok ([[TargetCoord.num 10, TargetCoord.num 20]], false) ∧
    (get_targets isFile readLines (.ofList ["chr1"])).map
      (fun m => (tmTuples m "+" "chr1", tmTuples m "-" "chr1"))
      = .ok ([defaultTuple], [defaultTuple]) :=
  ⟨rfl, rfl⟩

/-- C9 (amended): a string argument that is not a file never makes
    get_targets fail: the string is iterated character by character as
    coordinate-free contig descriptors, and every character other than a
    comma — of any such string, commas present or not — is mapped, once
    per occurrence, to the interval (0, inf) on both the + and - strands.
    (A comma character itself instead yields an empty tuple under an
    empty strand key, so commas themselves are excluded.) -/
theorem claim_C9_string_iteration (isFile : String → Bool)
    (readLines : String → List String) (s : String)
    (hnf : isFile s = false) :
    (∃ m, get_targets isFile readLines (.ofStr s) = .ok m) ∧
    (∀ c ∈ s.data, c ≠ ',' →
      (get_targets isFile readLines (.ofStr s)).map
        (fun m => (tmTuples m "+" (String.mk [c]),
                   tmTuples m "-" (String.mk [c])))
        = .ok (List.replicate (s.data.count c) defaultTuple,
               List.replicate (s.data.count c) defaultTuple)) := by
  constructor
  · exact ⟨_, get_targets_str_all isFile readLines s hnf⟩
  · intro c _ hc
    rw [get_targets_str_all isFile readLines s hnf]
    simp only [Except.map]
    rw [tmTuples_charEntries s.data c hc "+" (Or.inl rfl),
      tmTuples_charEntries s.data c hc "-" (Or.inr rfl)]

/-- C9 counterexample: on the string consisting of one comma, the comma
    is not mapped to (0, inf) on the + strand; it produces an empty
    tuple under an empty strand and contig name instead. -/
theorem claim_C9_counterexample :
    get_targets noFile noLines (.ofStr ",") = .ok [("", "", [])] ∧
    (get_targets noFile noLines (.ofStr ",")).map
      (fun m => tmTuples m "+" ",") ≠ .ok [defaultTuple] := by
  constructor
  · decide
  · decide

/-- C9 witness: on the comma-containing non-file string a,b the
    non-comma character a is mapped once to (0, inf) on both strands. -/
theorem claim_C9_witness :
    (get_targets noFile noLines (.ofStr "a,b")).map
      (fun m => (tmTuples m "+" "a", tmTuples m "-" "a"))
      = .ok ([defaultTuple], [defaultTuple]) := by
  have h := (claim_C9_string_iteration noFile noLines "a,b" rfl).2
    'a' (by decide) (by decide)
  exact h.trans (by decide)

/-- C7: get_flowcell_array produces a (10, 13) array for flowcell_size
    126, a (16, 32) array for 512 and a (25, 120) array for 3000 (the
    126 and 512 cases under the spec-modelled bounds of the external
    lookup tables). -/
theorem claim_C7_grid_shapes (T : ChannelTables)
    (hshape : SpecTablesShape T) :
    (∃ g, get_flowcell_array T 126 = .ok g ∧ g.length = 10 ∧
      ∀ row ∈ g, row.length = 13) ∧
    (∃ g, get_flowcell_array T 512 = .ok g ∧ g.length = 16 ∧
      ∀ row ∈ g, row.length = 32) ∧
    (∃ g, get_flowcell_array T 3000 = .ok g ∧ g.length = 25 ∧
      ∀ row ∈ g, row.length = 120) := by
  obtain ⟨⟨hubF, hatcF, hatrF⟩, ⟨hubM, hatcM, hatrM⟩⟩ := hshape
  refine ⟨⟨_, get_flowcell_array_ok T (by norm_num), ?_, ?_⟩,
    ⟨_, get_flowcell_array_ok T (by norm_num), ?_, ?_⟩,
    ⟨_, get_flowcell_array_ok T (by norm_num), ?_, ?_⟩⟩
  · rw [gridOf_length, int_toNat_126, coordFun_126,
      gridMaxRow_eq T.flongle 126 9 (fun ch a b => (hubF ch a b).2) hatrF]
  · intro row hrow
    rw [gridOf_rowlen _ _ row hrow, int_toNat_126, coordFun_126,
      gridMaxCol_eq T.flongle 126 12 (fun ch a b => (hubF ch a b).1) hatcF]
  · rw [gridOf_length, int_toNat_512, coordFun_512,
      gridMaxRow_eq T.minion 512 15 (fun ch a b => (hubM ch a b).2) hatrM]
  · intro row hrow
    rw [gridOf_rowlen _ _ row hrow, int_toNat_512, coordFun_512,
      gridMaxCol_eq T.minion 512 31 (fun ch a b => (hubM ch a b).1) hatcM]
  · rw [gridOf_length, int_toNat_3000, coordFun_3000, gridMaxRow_f3000]
  · intro row hrow
    rw [gridOf_rowlen _ _ row hrow, int_toNat_3000, coordFun_3000,
      gridMaxCol_f3000]

/-- C7 witness: the concrete tables give grids with 10, 16 and 25 rows. -/
theorem claim_C7_witness :
    (get_flowcell_array dummyTables 126).map (fun g => g.length)
      = .ok 10 ∧
    (get_flowcell_array dummyTables 512).map (fun g => g.length)
      = .ok 16 ∧
    (get_flowcell_array dummyTables 3000).map (fun g => g.length)
      = .ok 25 := by
  obtain ⟨⟨gF, hF, hFl, _⟩, ⟨gM, hM, hMl, _⟩, ⟨gP, hP, hPl, _⟩⟩ :=
    claim_C7_grid_shapes dummyTables dummyTables_shape
  rw [hF, hM, hP]
  simp [Except.map, hFl, hMl, hPl]

/-- C5 (amended): a configuration without the conditions section fails
    with a KeyError, but an absent reference field does NOT make
    get_run_info fail: the field is read with .get and the call returns
    reference = None. -/
theorem claim_C5_missing_fields (T : ChannelTables) (isFile : String → Bool)
    (readLines : String → List String) (shuffle : List String → List String)
    (toml : TomlDict) (nc : Int) :
    (dget toml "conditions" = none →
      get_run_info T isFile readLines shuffle toml nc
        = .error "KeyError: conditions") ∧
    (∀ r ct, get_run_info T isFile readLines shuffle toml nc = .ok r →
      dget toml "conditions" = some (.table ct) →
      dget ct "reference" = none → r.reference = none) := by
  constructor
  · exact fun h => get_run_info_no_conditions h
  · intro r ct hok hc href
    obtain ⟨ct0, ax, chans, ct1, hc0, hax, hgen, hmut, hr⟩ :=
      get_run_info_ok hok
    rw [hc] at hc0
    have hcteq : ct = ct0 := TopEntry.table.inj (Option.some.inj hc0)
    subst hcteq
    have hrref : r.reference = dget ct1 "reference" := by rw [hr]
    rw [hrref]
    rw [dget_none_iff_keys] at href ⊢
    rw [mutateConds_keys isFile readLines _ _ _ hmut]
    exact href

set_option maxRecDepth 100000 in
/-- C5 counterexample: cfg0 has no reference field inside conditions,
    yet get_run_info succeeds and returns reference = None instead of a
    missing-configuration-field error. -/
theorem claim_C5_counterexample :
    condRefOf cfg0 = some none ∧
    (get_run_info dummyTables noFile noLines id cfg0 126).isOk = true ∧
    (get_run_info dummyTables noFile noLines id cfg0 126).map
      (fun r => r.reference) = .ok none := by
  refine ⟨by decide, by decide, by decide⟩

set_option maxRecDepth 100000 in
/-- C5 witness: the empty configuration errors on the conditions key, and
    cfg0 yields reference = None. -/
theorem claim_C5_witness :
    get_run_info dummyTables noFile noLines id ([] : TomlDict) 126
      = .error "KeyError: conditions" ∧
    (get_run_info dummyTables noFile noLines id cfg1 126).map
      (fun r => r.reference) = .ok none := by
  constructor
  · exact (claim_C5_missing_fields dummyTables noFile noLines id [] 126).1 rfl
  · cases hok : get_run_info dummyTables noFile noLines id cfg1 126 with
    | error e =>
      have hko : (get_run_info dummyTables noFile noLines id cfg1 126).isOk
          = true := by decide
      rw [hok] at hko
      cases hko
    | ok r =>
      have hrn := (claim_C5_missing_fields dummyTables noFile noLines id
        cfg1 126).2 r cfg0ct hok rfl rfl
      simp only [Except.map]
      rw [hrn]

/-- C3 (amended): get_run_info does mutate the in-memory configuration:
    every top-level field other than conditions is unchanged, while each
    condition table of the conditions section ends with its targets field
    replaced by the set of contig names and a coords field holding the
    parsed target map. -/
theorem claim_C3_mutation (T : ChannelTables) (isFile : String → Bool)
    (readLines : String → List String) (shuffle : List String → List String)
    (toml : TomlDict) (nc : Int) (r : RunInfoResult)
    (hok : get_run_info T isFile readLines shuffle toml nc = .ok r) :
    (∀ key, key ≠ "conditions" → dget r.final_config key = dget toml key) ∧
    (∀ ct, dget toml "conditions" = some (.table ct) →
      (tableKeys ct).Nodup →
      ∃ ct1, dget r.final_config "conditions" = some (.table ct1) ∧
        ∀ k ∈ tableKeys ct, ∃ cond tm,
          dget ct k = some (.table cond) ∧
          targetsField isFile readLines (dget cond "targets") = .ok tm ∧
          dget ct1 k = some (.table (condTransform cond tm)) ∧
          dget (condTransform cond tm) "targets"
            = some (.strSet (contigsOf tm)) ∧
          dget (condTransform cond tm) "coords"
            = some (.targetMap tm)) := by
  obtain ⟨ct0, ax, chans, ct1, hc0, hax, hgen, hmut, hr⟩ :=
    get_run_info_ok hok
  constructor
  · intro key hkey
    rw [hr]
    show dget (dset toml "conditions" (.table ct1)) key = dget toml key
    rw [dset, dget_dupdate, if_neg hkey]
  · intro ct hc hnd
    rw [hc] at hc0
    have hcteq : ct = ct0 := TopEntry.table.inj (Option.some.inj hc0)
    subst hcteq
    refine ⟨ct1, ?_, ?_⟩
    · rw [hr]
      show dget (dset toml "conditions" (.table ct1)) "conditions" = _
      rw [dset, dget_dupdate, if_pos rfl]
    · intro k hk
      obtain ⟨cond, tm, h1, h2, h3⟩ := mutateConds_value isFile readLines
        _ _ _ hmut hnd k hk (tableKeys_isTable ct k hk)
      exact ⟨cond, tm, h1, h2, h3, condTransform_targets cond tm,
        condTransform_coords cond tm⟩

set_option maxRecDepth 100000 in
/-- C3 counterexample: cfg0 passed as an in-memory dict is mutated by
    get_run_info: the targets field of condition 0 is a list of
    descriptor strings before the call and a set of contig names after
    it. -/
theorem claim_C3_counterexample :
    condTargetsOf cfg0 "0" = some (some (.strList ["chr1,10,20,+"])) ∧
    (get_run_info dummyTables noFile noLines id cfg0 126).map
      (fun r => condTargetsOf r.final_config "0")
      = .ok (some (some (.strSet ["chr1"]))) := by
  constructor
  · decide
  · decide

set_option maxRecDepth 100000 in
/-- C3 witness: the frame part at the unrelated top-level key of cfg1. -/
theorem claim_C3_witness :
    (get_run_info dummyTables noFile noLines id cfg1 126).map
      (fun r => dget r.final_config "extra")
      = .ok (some (.scalar (.int 7))) := by
  cases hok : get_run_info dummyTables noFile noLines id cfg1 126 with
  | error e =>
    have hko : (get_run_info dummyTables noFile noLines id cfg1 126).isOk
        = true := by decide
    rw [hok] at hko
    cases hko
  | ok r =>
    have hframe := (claim_C3_mutation dummyTables noFile noLines id
      cfg1 126 r hok).1 "extra" (by decide)
    show Except.ok (dget r.final_config "extra") = _
    rw [hframe]
    rfl

/-- C1: for a recognized flowcell size and spec-modelled injective
    lookup tables, every channel in [1, flowcell_size] occurs exactly
    once across the groups of any successful generate_flowcell call (odd
    and even split included), and after a successful get_run_info call it
    occurs exactly once as a run_info key, mapped to the index of the
    channel group that contains it. -/
theorem claim_C1_round_trip (T : ChannelTables) (fs : Int)
    (hfs : fs = 126 ∨ fs = 512 ∨ fs = 3000)
    (hspec : SpecTablesInjective T) (ch : Int)
    (h1 : 1 ≤ ch) (h2 : ch ≤ fs) :
    (∀ (split axis : Int) (oe : Bool) (groups : List (List Int)),
      generate_flowcell T fs split axis oe = .ok groups →
      groups.flatten.count ch = 1) ∧
    (∀ (isFile : String → Bool) (readLines : String → List String)
      (shuffle : List String → List String) (toml : TomlDict)
      (r : RunInfoResult),
      (∀ l, (shuffle l).Perm l) →
      get_run_info T isFile readLines shuffle toml fs = .ok r →
      keysCount r.run_info ch = 1 ∧
      ∃ ct ax chans i grp,
        dget toml "conditions" = some (.table ct) ∧
        axisExtract ct = .ok ax ∧
        generate_flowcell T fs ((tableKeys ct).length : Int) ax false
          = .ok chans ∧
        mlookup r.run_info ch = some i ∧
        chans[i]? = some grp ∧ ch ∈ grp) := by
  constructor
  · intro split axis oe groups hgen
    cases oe with
    | true => exact generate_count_oddeven T hgen h1 h2
    | false =>
      exact generate_count T hfs (coordFun_inj T hfs hspec) hgen h1 h2
  · intro isFile readLines shuffle toml r hsh hok
    exact get_run_info_round T hfs hspec hsh hok h1 h2

set_option maxRecDepth 100000 in
/-- C1 witness: channel 5 on a Flongle flowcell with the concrete tables
    and the two-condition configuration cfg0. -/
theorem claim_C1_witness :
    (generate_flowcell dummyTables 126 2 0 false).map
      (fun groups => groups.flatten.count 5) = .ok 1 ∧
    (get_run_info dummyTables noFile noLines id cfg0 126).map
      (fun r => keysCount r.run_info 5) = .ok 1 := by
  have hmain := claim_C1_round_trip dummyTables 126 (by norm_num)
    dummyTables_inj 5 (by norm_num) (by norm_num)
  constructor
  · cases hgen : generate_flowcell dummyTables 126 2 0 false with
    | error e =>
      have hko : (generate_flowcell dummyTables 126 2 0 false).isOk
          = true := by decide
      rw [hgen] at hko
      cases hko
    | ok groups =>
      show Except.ok (groups.flatten.count 5) = .ok 1
      rw [hmain.1 2 0 false groups hgen]
  · cases hok : get_run_info dummyTables noFile noLines id cfg0 126 with
    | error e =>
      have hko : (get_run_info dummyTables noFile noLines id cfg0 126).isOk
          = true := by decide
      rw [hok] at hko
      cases hko
    | ok r =>
      have hround := hmain.2 noFile noLines id cfg0 r
        (fun l => List.Perm.refl l) hok
      show Except.ok (keysCount r.run_info 5) = .ok 1
      rw [hround.1]

end RU
